import Mathlib

/-!
Verification development for the folder-consolidator notebook
(`assessment.ipynb`, cell `cell-5`).  The Python code is shallowly embedded:
pure functions of the notebook become Lean functions over `String`/`List Char`;
behaviour of the standard-library calls the notebook makes (`json.dump`,
`json.loads`, `csv.DictReader`, `pd.read_csv`, `gzip.open`) is modelled by
executable Lean definitions that follow the documented semantics of those
libraries, restricted to the fragments the notebook exercises (see the doc
comment of each definition).
-/

/-- A decoded JSON value, as produced by Python's `json.loads` and consumed by
`json.dump`.  Numbers are modelled as integers (the notebook's data flows never
depend on float formatting; non-integral literals are outside the model).
`nan` models the Python float `nan` that `pd.read_csv` produces for missing
cells: `json.dump` serialises it as the token `NaN`, and `json.loads`
(with its default `allow_nan=True`) parses that token back. -/
inductive JVal where
  | null : JVal
  | bool (b : Bool) : JVal
  | num (n : Int) : JVal
  | nan : JVal
  | str (s : String) : JVal
  | arr (elems : List JVal) : JVal
  | obj (mems : List (String × JVal)) : JVal

/-- Decimal digit character for `d < 10` (models Python's decimal printing). -/
def digitChar (d : Nat) : Char := Char.ofNat (48 + d)

/-- Lower-case hexadecimal digit character for `d < 16` (Python's `%x`). -/
def hexChar (d : Nat) : Char :=
  if d < 10 then Char.ofNat (48 + d) else Char.ofNat (97 + d - 10)

/-- Fuel-driven decimal digits of a natural number, most significant first.
`fuel` only needs to exceed the number of digits; `natDigits` supplies it. -/
def natDigitsAux : Nat → Nat → List Char
  | 0, _ => []
  | fuel + 1, n =>
    if n < 10 then [digitChar n]
    else natDigitsAux fuel (n / 10) ++ [digitChar (n % 10)]

/-- Decimal digits of a natural number (Python `str(n)` for `n ≥ 0`). -/
def natDigits (n : Nat) : List Char := natDigitsAux (n + 1) n

/-- Python's decimal rendering of an `int` (`json.dump` output for integers). -/
def intRepr : Int → List Char
  | Int.ofNat m => natDigits m
  | Int.negSucc m => '-' :: natDigits (m + 1)

/-- The `\uXXXX` escape Python's `json.dump` (with `ensure_ascii=True`)
emits for the code unit `n` (four lower-case hex digits). -/
def esc4 (n : Nat) : List Char :=
  ['\\', 'u', hexChar (n / 4096 % 16), hexChar (n / 256 % 16),
   hexChar (n / 16 % 16), hexChar (n % 16)]

/-- How Python's `json.dump` (default `ensure_ascii=True`) renders one
character of a string: the two-character named escapes, `\uXXXX` for other
characters outside `0x20..0x7e` (a surrogate pair for code points above
`0xFFFF`), and the character itself otherwise. -/
def quoteChar (c : Char) : List Char :=
  if c = '"' then ['\\', '"']
  else if c = '\\' then ['\\', '\\']
  else if c = '\n' then ['\\', 'n']
  else if c = '\r' then ['\\', 'r']
  else if c = '\t' then ['\\', 't']
  else if c = '\x08' then ['\\', 'b']
  else if c = '\x0c' then ['\\', 'f']
  else if c.toNat < 32 then esc4 c.toNat
  else if c.toNat < 127 then [c]
  else if c.toNat < 65536 then esc4 c.toNat
  else esc4 (55296 + (c.toNat - 65536) / 1024) ++ esc4 (56320 + (c.toNat - 65536) % 1024)

/-- `json.dump`'s rendering of the characters of a string body. -/
def quoteBody : List Char → List Char
  | [] => []
  | c :: t => quoteChar c ++ quoteBody t

/-- `json.dump`'s rendering of a whole string, quotes included. -/
def quoteString (s : String) : List Char := '"' :: quoteBody s.toList ++ ['"']

/-- Characters of a literal token. -/
def litChars (s : String) : List Char := s.toList

mutual
/-- The exact character sequence Python's `json.dump(v, f)` writes for the
value `v` (default separators `", "` and `": "`, `ensure_ascii=True`,
`allow_nan=True` so the float `nan` prints as the bare token `NaN`). -/
def dumpChars : JVal → List Char
  | .null => litChars "null"
  | .bool true => litChars "true"
  | .bool false => litChars "false"
  | .num n => intRepr n
  | .nan => litChars "NaN"
  | .str s => quoteString s
  | .arr xs => '[' :: dumpElems xs ++ [']']
  | .obj ms => '\x7b' :: dumpMems ms ++ ['\x7d']

/-- Array elements joined by `", "`. -/
def dumpElems : List JVal → List Char
  | [] => []
  | [x] => dumpChars x
  | x :: y :: t => dumpChars x ++ ',' :: ' ' :: dumpElems (y :: t)

/-- Object members `"key": value` joined by `", "`. -/
def dumpMems : List (String × JVal) → List Char
  | [] => []
  | [(k, v)] => quoteString k ++ ':' :: ' ' :: dumpChars v
  | (k, v) :: m :: t =>
      quoteString k ++ ':' :: ' ' :: dumpChars v ++ ',' :: ' ' :: dumpMems (m :: t)
end

/-- `json.dump` output as a `String`. -/
def dumps (v : JVal) : String := String.mk (dumpChars v)

example : dumps (.arr [.num 12, .nan]) = "[12, NaN]" := by decide

example : dumps (.obj [("a", .str "x")]) = "\x7b\"a\": \"x\"\x7d" := by decide

/-! ## A model of Python's `json.loads`

The notebook calls `json.loads` on single lines and `json.load` on whole
files.  The parser below follows CPython's `json` scanner on the fragment the
notebook can produce: the `an` flag is `true` for Python's default
`allow_nan=True` (the token `NaN` is accepted); with `an = false` the grammar
is the strict RFC JSON grammar, used here to state the spec's invariant
"every output line is valid JSON".  Numbers are integers (see `JVal`);
fractional and exponent literals are outside the model. -/

/-- JSON whitespace, as skipped by CPython's scanner. -/
def isJWs (c : Char) : Bool := c = ' ' || c = '\t' || c = '\n' || c = '\r'

/-- Drop leading JSON whitespace. -/
def skipWs : List Char → List Char
  | [] => []
  | c :: rest => if isJWs c then skipWs rest else c :: rest

/-- Decimal digit test. -/
def isDigitC (c : Char) : Bool := 48 ≤ c.toNat && c.toNat ≤ 57

/-- Hexadecimal digit test. -/
def isHexC (c : Char) : Bool :=
  (48 ≤ c.toNat && c.toNat ≤ 57) || (97 ≤ c.toNat && c.toNat ≤ 102) ||
  (65 ≤ c.toNat && c.toNat ≤ 70)

/-- Numeric value of a hexadecimal digit. -/
def hexVal (c : Char) : Nat :=
  if c.toNat ≤ 57 then c.toNat - 48
  else if c.toNat ≤ 70 then c.toNat - 55
  else c.toNat - 87

/-- Split a maximal run of decimal digits off the front of the input. -/
def takeDigits : List Char → List Char × List Char
  | [] => ([], [])
  | c :: rest =>
    if isDigitC c then
      let p := takeDigits rest
      (c :: p.1, p.2)
    else ([], c :: rest)

/-- Value of a digit run, most significant first. -/
def digitsVal (ds : List Char) : Nat := ds.foldl (fun a c => 10 * a + (c.toNat - 48)) 0

/-- Parse an integer JSON number off the front of the input
(optional minus sign, then one or more digits). -/
def pNum : List Char → Option (JVal × List Char)
  | [] => none
  | c :: rest =>
    if c = '-' then
      let p := takeDigits rest
      if p.1 = [] then none else some (.num (-(digitsVal p.1 : Int)), p.2)
    else
      let p := takeDigits (c :: rest)
      if p.1 = [] then none else some (.num (digitsVal p.1), p.2)

/-- The two-character string escapes CPython's scanner accepts. -/
def escDecode (e : Char) : Option Char :=
  if e = '"' then some '"'
  else if e = '\\' then some '\\'
  else if e = '/' then some '/'
  else if e = 'b' then some '\x08'
  else if e = 'f' then some '\x0c'
  else if e = 'n' then some '\n'
  else if e = 'r' then some '\r'
  else if e = 't' then some '\t'
  else none

/-- Parse a JSON string body (the opening quote already consumed), returning
the decoded characters and the input after the closing quote.  Raw control
characters are rejected (CPython's default `strict=True`); `\uXXXX` escapes
are decoded code-unit-wise (surrogate pairs are not recombined — the decoded
characters are irrelevant to this development, only success is). -/
def pStrBody : List Char → Option (List Char × List Char)
  | [] => none
  | c :: rest =>
    if c = '"' then some ([], rest)
    else if c = '\\' then
      match rest with
      | 'u' :: h1 :: h2 :: h3 :: h4 :: rest3 =>
        if isHexC h1 && isHexC h2 && isHexC h3 && isHexC h4 then
          (pStrBody rest3).map
            (fun p =>
              (Char.ofNat (hexVal h1 * 4096 + hexVal h2 * 256 + hexVal h3 * 16 + hexVal h4)
                 :: p.1, p.2))
        else none
      | e :: rest2 =>
        match escDecode e with
        | some d => (pStrBody rest2).map (fun p => (d :: p.1, p.2))
        | none => none
      | [] => none
    else if c.toNat < 32 then none
    else (pStrBody rest).map (fun p => (c :: p.1, p.2))

/-- Expect the literal tail `lit` at the front of `cs` and produce `v`. -/
def expectLit (lit : List Char) (cs : List Char) (v : JVal) : Option (JVal × List Char) :=
  if lit.isPrefixOf cs then some (v, cs.drop lit.length) else none

mutual
/-- Parse one JSON value off the front of the input.  `an` is Python's
`allow_nan`; `fuel` bounds the recursion depth and is supplied by `loadsCh`
as more than the input length, which is always sufficient. -/
def pVal (an : Bool) : Nat → List Char → Option (JVal × List Char)
  | 0, _ => none
  | fuel + 1, cs =>
    match cs with
    | [] => none
    | c :: rest =>
      if c = 't' then expectLit ['r', 'u', 'e'] rest (.bool true)
      else if c = 'f' then expectLit ['a', 'l', 's', 'e'] rest (.bool false)
      else if c = 'n' then expectLit ['u', 'l', 'l'] rest .null
      else if c = 'N' then (if an then expectLit ['a', 'N'] rest .nan else none)
      else if c = '"' then (pStrBody rest).map (fun p => (.str (String.mk p.1), p.2))
      else if c = '[' then
        match skipWs rest with
        | [] => none
        | c2 :: r2 =>
          if c2 = ']' then some (.arr [], r2)
          else (pItems an fuel (c2 :: r2)).map (fun p => (.arr p.1, p.2))
      else if c = '\x7b' then
        match skipWs rest with
        | [] => none
        | c2 :: r2 =>
          if c2 = '\x7d' then some (.obj [], r2)
          else pMems an fuel (c2 :: r2) |>.map (fun p => (.obj p.1, p.2))
      else pNum (c :: rest)

/-- Parse the elements of a non-empty JSON array, consuming the closing
bracket. -/
def pItems (an : Bool) : Nat → List Char → Option (List JVal × List Char)
  | 0, _ => none
  | fuel + 1, cs =>
    match pVal an fuel cs with
    | none => none
    | some (v, r1) =>
      match skipWs r1 with
      | [] => none
      | c :: r2 =>
        if c = ',' then (pItems an fuel (skipWs r2)).map (fun p => (v :: p.1, p.2))
        else if c = ']' then some ([v], r2)
        else none

/-- Parse the members of a non-empty JSON object, consuming the closing
brace. -/
def pMems (an : Bool) : Nat → List Char → Option (List (String × JVal) × List Char)
  | 0, _ => none
  | fuel + 1, cs =>
    match cs with
    | [] => none
    | c :: rest =>
      if c = '"' then
        match pStrBody rest with
        | none => none
        | some (k, r1) =>
          match skipWs r1 with
          | [] => none
          | c2 :: r2 =>
            if c2 = ':' then
              match pVal an fuel (skipWs r2) with
              | none => none
              | some (v, r3) =>
                match skipWs r3 with
                | [] => none
                | c3 :: r4 =>
                  if c3 = ',' then
                    (pMems an fuel (skipWs r4)).map
                      (fun p => ((String.mk k, v) :: p.1, p.2))
                  else if c3 = '\x7d' then some ([(String.mk k, v)], r4)
                  else none
            else none
      else none
end

/-- Parse a whole character sequence as one JSON document: skip surrounding
whitespace, parse one value, and require that nothing else remains (CPython
raises `JSONDecodeError` on trailing data). -/
def parseDoc (an : Bool) (cs : List Char) : Option JVal :=
  let cs1 := skipWs cs
  match pVal an (cs1.length + 1) cs1 with
  | none => none
  | some (v, rest) => if skipWs rest = [] then some v else none

/-- Python's `json.loads` (default options, so `NaN` is accepted). -/
def loads (s : String) : Option JVal := parseDoc true s.toList

/-- Strict RFC-JSON parse: like `loads` but rejecting `NaN`.  `(strictParse
s).isSome` is the spec's notion of "`s` is valid, independently-parseable
JSON". -/
def strictParse (s : String) : Option JVal := parseDoc false s.toList

example : loads "\x7b\"x\":1\x7d" = some (.obj [("x", .num 1)]) := rfl
example : loads "not json" = none := rfl
example : loads " [1, 2]" = some (.arr [.num 1, .num 2]) := rfl
example : loads "NaN" = some .nan := rfl
example : strictParse "NaN" = none := rfl
example : loads "-42" = some (.num (-42)) := rfl
example : loads (dumps (.obj [("a", .str "x\ny")])) = some (.obj [("a", .str "x\ny")]) := rfl
example : strictParse "\x7b\"a\": 1, \"b\": NaN\x7d" = none := rfl
example : loads "\x7b\"a\": 1, \"b\": NaN\x7d"
    = some (.obj [("a", .num 1), ("b", .nan)]) := rfl

/-- The continuations a serialized value is followed by inside a document:
end of input, a separator comma, or a closing bracket or brace. -/
def stopper : List Char → Bool
  | [] => true
  | c :: _ => c = ',' || c = ']' || c = '\x7d'

/-! ## Text-file utilities

Source files are modelled by their decoded text content (`\n` line ends; the
notebook opens everything in text mode).  Python's per-line iteration plus
`str.strip()` is modelled by splitting on `'\n'` and stripping each piece. -/

/-- Python `str.strip()`'s whitespace (the ASCII fragment). -/
def isPyWs (c : Char) : Bool :=
  c = ' ' || c = '\t' || c = '\n' || c = '\r' || c = '\x0b' || c = '\x0c'

/-- Python `str.strip()` on a character list. -/
def stripCh (l : List Char) : List Char :=
  ((l.dropWhile isPyWs).reverse.dropWhile isPyWs).reverse

/-- Split on `'\n'`; `"a\nb"` gives `["a", "b"]`, a trailing newline yields a
final empty piece (blank, hence skipped by every consumer in the notebook). -/
def splitLinesCh : List Char → List (List Char)
  | [] => [[]]
  | c :: rest =>
    if c = '\n' then [] :: splitLinesCh rest
    else
      match splitLinesCh rest with
      | [] => [[c]]
      | l :: ls => (c :: l) :: ls

/-- A regular file of a source folder: its name (as `pathlib` renders the
path's final component), its decoded text content, whether the directory entry
is a regular file (`Path.is_file()`), and whether `open` succeeds on it
(`readable = false` models an `OSError` on open/read). -/
structure SrcFile where
  name : String
  content : String
  isFile : Bool := true
  readable : Bool := true

/-- `pathlib.PurePath.suffix`: the final `'.'`-suffix of the file name, empty
when the name has no dot, starts with its only dot, or ends with the dot. -/
def pathSuffix (name : String) : String :=
  let base := ((name.toList.reverse.takeWhile (fun c => c ≠ '/')).reverse)
  let revAfter := base.reverse.takeWhile (fun c => c ≠ '.')
  if revAfter.length = base.length then ""
  else if revAfter.length = 0 then ""
  else if base.length - revAfter.length - 1 = 0 then ""
  else String.mk ('.' :: revAfter.reverse)

/-- `file.suffix.lower()` as the notebook computes it. -/
def suffixLower (name : String) : String :=
  String.mk ((pathSuffix name).toList.map Char.toLower)

example : suffixLower "tracks_0.CSV" = ".csv" := rfl
example : suffixLower "a/b/data.Json" = ".json" := rfl
example : suffixLower "README" = "" := rfl
example : suffixLower ".bashrc" = "" := rfl

/-- `f.read(1)` on the file's text: its first character, if any. -/
def firstChar (content : String) : Option Char := content.toList.head?

/-! ## Records

The notebook's readers yield two shapes of Python object: values decoded by
`json.loads`, and `dict` rows.  A `csv.DictReader` row can carry the non-string
key `None` (its `restkey`, holding the overflow cells of a row longer than the
header), so dict keys are modelled as `Option String` with `none` for Python's
`None`. -/

/-- A Python dict row: insertion-ordered keys (`none` = Python `None`). -/
abbrev RowD := List (Option String × JVal)

/-- A record yielded by any of the notebook's readers. -/
inductive PyRec where
  | jv (v : JVal) : PyRec
  | row (r : RowD) : PyRec

/-- How `json.dump` sees a dict key: `None` serialises as the string `null`. -/
def keyStr : Option String → String
  | some k => k
  | none => "null"

/-- The JSON value `json.dump` serialises a record as. -/
def pyToJVal : PyRec → JVal
  | .jv v => v
  | .row r => .obj (r.map (fun p => (keyStr p.1, p.2)))

/-- The exact line text `json.dump(record, out_file)` writes for a record. -/
def dumpsRec (r : PyRec) : String := dumps (pyToJVal r)

/-- The key sequence of a dict record (empty for a non-dict record). -/
def recKeys : PyRec → List (Option String)
  | .row d => d.map (fun p => p.1)
  | .jv _ => []

/-! ## The delimited-text (CSV) layer

`csv.reader` on the default dialect, restricted to what the notebook relies
on: fields separated by `','`, rows by `'\n'`, double-quoted fields with `""`
escapes (quotes recognised at field start), a blank line giving the empty row
`[]`, and no final row for input ending in a newline. -/

/-- Character-level CSV scan.  Arguments: remaining input, inside-quotes flag,
current field (reversed), current row (reversed), whether the current row has
consumed any character. -/
def csvAux : List Char → Bool → List Char → List String → Bool → List (List String)
  | [], _, fld, row, sawAny =>
    if sawAny then [(String.mk fld.reverse :: row).reverse] else []
  | '"' :: '"' :: rest2, true, fld, row, _ => csvAux rest2 true ('"' :: fld) row true
  | '"' :: rest, true, fld, row, _ => csvAux rest false fld row true
  | c :: rest, true, fld, row, _ => csvAux rest true (c :: fld) row true
  | c :: rest, false, fld, row, sawAny =>
    if c = '\n' then
      (if sawAny then (String.mk fld.reverse :: row).reverse else [])
        :: csvAux rest false [] [] false
    else if c = ',' then csvAux rest false [] (String.mk fld.reverse :: row) true
    else if c = '"' && fld = [] then csvAux rest true fld row true
    else csvAux rest false (c :: fld) row true

/-- All rows `csv.reader` yields for the file content. -/
def csvRows (content : String) : List (List String) :=
  csvAux content.toList false [] [] false

example : csvRows "a,b,c\n1,2,3" = [["a", "b", "c"], ["1", "2", "3"]] := rfl
example : csvRows "a,b\n\n1,\"x,y\"\n" = [["a", "b"], [], ["1", "x,y"]] := rfl
example : csvRows "" = [] := rfl

/-- Insert into a Python dict modelled as an insertion-ordered list:
an existing key is updated in place, a new key is appended. -/
def dictInsert (d : RowD) (k : Option String) (v : JVal) : RowD :=
  match d with
  | [] => [(k, v)]
  | (k0, v0) :: t => if k0 = k then (k0, v) :: t else (k0, v0) :: dictInsert t k v

/-- One `csv.DictReader` row: `dict(zip(fieldnames, row))`, then the overflow
cells under the `restkey` `None` when the row is longer than the header, or
`restval None` fills for the missing trailing fields when it is shorter. -/
def mkDictRow (header row : List String) : RowD :=
  let d := (header.zip row).foldl (fun d p => dictInsert d (some p.1) (.str p.2)) []
  if header.length < row.length then
    dictInsert d none (.arr ((row.drop header.length).map .str))
  else
    (header.drop row.length).foldl (fun d k => dictInsert d (some k) .null) d

/-- `read_csv` of the notebook: `csv.DictReader(f)` yields one dict per
non-blank row after the header row (`DictReader` skips rows that come back as
`[]`); with no header row at all it yields nothing. -/
def read_csv (content : String) : List PyRec :=
  match csvRows content with
  | [] => []
  | header :: rows => ((rows.filter (fun r => r ≠ [])).map (mkDictRow header)).map .row

example :
    read_csv "a,b,c\n1,2,3"
      = [.row [(some "a", .str "1"), (some "b", .str "2"), (some "c", .str "3")]] := rfl
example :
    read_csv "a,b\n1,2,3"
      = [.row [(some "a", .str "1"), (some "b", .str "2"), (none, .arr [.str "3"])]] := rfl

/-! ## The pandas CSV layer

`read_pd_csv` iterates `pd.read_csv(file_path, chunksize=10000)` and flattens
`chunk.to_dict(orient="records")`.  Chunking is invisible in the resulting
record stream, so the model produces the flat record list directly.  Of
`pd.read_csv`'s type inference the model keeps the part the notebook's data
exercises: an empty cell becomes the float `nan`, an integer literal becomes an
`int`, anything else stays a string (fractional literals are outside the
model, like everywhere in this development).  Blank lines are skipped
(`skip_blank_lines=True`), a row wider than the header raises
(`ParserError`), an empty input raises (`EmptyDataError`), and a short row is
padded with `nan`. -/

/-- An optionally-signed decimal integer literal, else `none`. -/
def intLit (l : List Char) : Option Int :=
  match l with
  | '-' :: ds => if ds ≠ [] && ds.all isDigitC then some (-(digitsVal ds : Int)) else none
  | ds => if ds ≠ [] && ds.all isDigitC then some (digitsVal ds) else none

/-- `pd.read_csv`'s decoding of one cell (restricted; see section comment). -/
def pdCell (s : String) : JVal :=
  if s = "" then .nan
  else
    match intLit s.toList with
    | some n => .num n
    | none => .str s

/-- One record of `chunk.to_dict(orient="records")`. -/
def mkPdRow (header row : List String) : RowD :=
  (header.zip (row ++ List.replicate (header.length - row.length) "")).map
    (fun p => (some p.1, pdCell p.2))

/-- `read_pd_csv` of the notebook (see section comment).  An unreadable file
or a pandas parse failure is an uncaught exception: `read_pd_csv` has no
handler, so the error propagates to the caller. -/
def read_pd_csv (f : SrcFile) : Except String (List PyRec) :=
  if f.readable = false then .error ("OSError opening " ++ f.name)
  else
    match (csvRows f.content).filter (fun r => r ≠ []) with
    | [] => .error ("EmptyDataError: " ++ f.name)
    | header :: rows =>
      if rows.any (fun r => header.length < r.length) then
        .error ("pandas ParserError: " ++ f.name)
      else .ok ((rows.map (mkPdRow header)).map .row)

example :
    read_pd_csv ⟨"m.csv", "a,b\n1,\n", true, true⟩
      = .ok [.row [(some "a", .num 1), (some "b", .nan)]] := rfl

/-! ## The JSON readers -/

/-- The mode test both JSON readers perform: `first_char = f.read(1)` compared
with the character `[` — the file's very first character, with no whitespace
skipping. -/
def jsonArrayMode (content : String) : Bool := firstChar content = some '['

/-- Newline-delimited processing shared by `read_json` and `read_pd_json`:
for each line, `line.strip()`; blank lines are skipped; non-blank lines are
passed to `json.loads`, and a line that raises `JSONDecodeError` is silently
dropped (`continue`). -/
def ndjsonVals (content : String) : List JVal :=
  (splitLinesCh content.toList).filterMap
    (fun l => if stripCh l = [] then none else parseDoc true (stripCh l))

/-- `read_json` of the notebook.  There is no `try`/`except` in this
generator: an `OSError` from `open` or a `JSONDecodeError` from the array-mode
`json.load(f)` propagates to whoever iterates the generator.  (A successful
parse of a file whose first character is `[` is necessarily an array, so the
array branch only yields elements or raises.) -/
def read_json (f : SrcFile) : Except String (List PyRec) :=
  if f.readable = false then .error ("OSError opening " ++ f.name)
  else if jsonArrayMode f.content then
    match loads f.content with
    | some (.arr xs) => .ok (xs.map .jv)
    | _ => .error ("JSONDecodeError: " ++ f.name)
  else .ok ((ndjsonVals f.content).map .jv)

/-- `read_pd_json` of the notebook: same logic as `read_json`, but the whole
body sits inside `try`/`except Exception`, which prints
`Error reading <path>: <e>` and ends the generator, yielding nothing further.
The pair's second component is the list of diagnostic lines printed. -/
def read_pd_json (f : SrcFile) : List PyRec × List String :=
  if f.readable = false then ([], ["Error reading " ++ f.name])
  else if jsonArrayMode f.content then
    match loads f.content with
    | some (.arr xs) => (xs.map .jv, [])
    | _ => ([], ["Error reading " ++ f.name])
  else ((ndjsonVals f.content).map .jv, [])

/-- `read_records` of the notebook: dispatch on `file_path.suffix.lower()`;
`.csv` and `.json` go to the readers (an unreadable `.csv` raises inside
`read_csv`'s `open`, uncaught), and any other extension appends
`[SKIPPED] unsupported file format: <path>` to the shared log file — written
with no trailing newline — and yields nothing.  The second component collects
the chunks appended to the Skip Log. -/
def read_records (f : SrcFile) : Except String (List PyRec) × List String :=
  let ext := suffixLower f.name
  if ext = ".csv" then
    (if f.readable then .ok (read_csv f.content) else .error ("OSError opening " ++ f.name), [])
  else if ext = ".json" then (read_json f, [])
  else (.ok [], ["[SKIPPED] unsupported file format: " ++ f.name])

/-! ## The two per-folder consolidators and the driver -/

/-- What one run of `process_folder` does to one folder: the decoded lines
written to the output artifact in order, the chunks appended to the Skip Log,
and `errAt = some e` when an uncaught exception aborted the folder midway
(everything after the failing file unprocessed). -/
structure FolderResult where
  lines : List String
  skips : List String
  errAt : Option String
deriving DecidableEq

/-- `process_folder` of the notebook: for each directory entry that is a
regular file AND whose lowered suffix is `.csv` or `.json`, write each record
of `read_records(file)` as one `json.dump` line.  Files failing the filter are
passed over silently — in particular `read_records` (and hence its Skip Log
branch) is never invoked on an unsupported extension.  An exception from a
reader propagates: the folder's processing stops there. -/
def process_folder : List SrcFile → FolderResult
  | [] => ⟨[], [], none⟩
  | f :: rest =>
    if f.isFile && (suffixLower f.name = ".csv" || suffixLower f.name = ".json") then
      match read_records f with
      | (.error e, sk) => ⟨[], sk, some e⟩
      | (.ok recs, sk) =>
        let r := process_folder rest
        ⟨recs.map dumpsRec ++ r.lines, sk ++ r.skips, r.errAt⟩
    else process_folder rest

/-- What one run of `pd_process_folder` does to one folder: output lines,
lines printed to stdout, and the aborting exception if any. -/
structure PdResult where
  lines : List String
  prints : List String
  errAt : Option String
deriving DecidableEq

/-- `pd_process_folder` of the notebook: skip non-files; dispatch `.csv` to
`read_pd_csv` (whose exceptions propagate — no handler) and `.json` to
`read_pd_json` (which never raises); any other extension prints
`Unsupported file format: <path>` to stdout and touches no log file. -/
def pd_process_folder : List SrcFile → PdResult
  | [] => ⟨[], [], none⟩
  | f :: rest =>
    if f.isFile = false then pd_process_folder rest
    else
      let ext := suffixLower f.name
      if ext = ".csv" then
        match read_pd_csv f with
        | .error e => ⟨[], [], some e⟩
        | .ok recs =>
          let r := pd_process_folder rest
          ⟨recs.map dumpsRec ++ r.lines, r.prints, r.errAt⟩
      else if ext = ".json" then
        let recs := read_pd_json f
        let r := pd_process_folder rest
        ⟨recs.1.map dumpsRec ++ r.lines, recs.2 ++ r.prints, r.errAt⟩
      else
        let r := pd_process_folder rest
        ⟨r.lines, ("Unsupported file format: " ++ f.name) :: r.prints, r.errAt⟩

/-- A subdirectory of the landing root. -/
structure Folder where
  name : String
  files : List SrcFile

/-- Which pipeline a `main` iteration ran, with its result. -/
inductive RunOutcome where
  | purePipeline (r : FolderResult) : RunOutcome
  | pdPipeline (r : PdResult) : RunOutcome
deriving DecidableEq

/-- One iteration of the notebook's `main(option)` loop on one subdirectory:
the progress message printed, and the pipeline actually invoked.  The code
reads: `if option == 'pandas': print(f"processing with pandas: ...");
process_folder(folder)` and otherwise
`print(f"processing in python generators : ..."); pd_process_folder(folder)`. -/
def mainStep (opt : String) (folder : Folder) : String × RunOutcome :=
  if opt = "pandas" then
    ("processing with pandas: " ++ folder.name, .purePipeline (process_folder folder.files))
  else
    ("processing in python generators : " ++ folder.name,
     .pdPipeline (pd_process_folder folder.files))

/-- `main(option)`: iterate the subdirectories of the landing root. -/
def mainRun (opt : String) (root : List Folder) : List (String × RunOutcome) :=
  root.map (mainStep opt)

/-! ## The output artifact as a file -/

/-- The decoded text `process_folder` leaves in `<folder>.json.gz`:
each record line followed by one newline. -/
def artifactText : List String → String
  | [] => ""
  | l :: t => l ++ "\n" ++ artifactText t

/-- A tiny file-system model: path-to-decoded-content map. -/
def fsSet : List (String × String) → String → String → List (String × String)
  | [], k, v => [(k, v)]
  | (k0, v0) :: t, k, v => if k0 = k then (k, v) :: t else (k0, v0) :: fsSet t k v

/-- Look a path up in the file-system model. -/
def fsGet : List (String × String) → String → Option String
  | [], _ => none
  | (k0, v0) :: t, k => if k0 = k then some v0 else fsGet t k

/-- `PROCESSED_ZONE / f"{subfolder.name}.json.gz"`. -/
def outputPathOf (folder : Folder) : String := "processed_data/" ++ folder.name ++ ".json.gz"

/-- One run of `process_folder` as a file-system transformer.
`gzip.open(output_path, "wt")` opens for writing, which *truncates* any
existing file, so the artifact's final content is exactly the text written
during this run, whatever the path held before.  (The gzip byte codec is a
faithful wrapper around this decoded text and is not modelled.) -/
def consolidateFS (fs : List (String × String)) (folder : Folder) : List (String × String) :=
  fsSet fs (outputPathOf folder) (artifactText (process_folder folder.files).lines)

/-- One run of `pd_process_folder` as a file-system transformer; its
`gzip.open(output_path, "wt")` truncates likewise. -/
def pdConsolidateFS (fs : List (String × String)) (folder : Folder) : List (String × String) :=
  fsSet fs (outputPathOf folder) (artifactText (pd_process_folder folder.files).lines)

/-! ## Counting helpers for the spec's line-count property -/

/-- Number of (newline-terminated) lines of a decoded artifact. -/
def newlineCount (s : String) : Nat := s.toList.count '\n'

/-- Number of data rows of a delimited-text file: the non-blank rows after
the header row. -/
def csvDataRowCount (content : String) : Nat :=
  match csvRows content with
  | [] => 0
  | _ :: rows => (rows.filter (fun r => r ≠ [])).length

/-- Number of successfully-parsed lines of a newline-delimited JSON file:
non-blank lines accepted by `json.loads`. -/
def ndjsonOkLineCount (content : String) : Nat :=
  ((splitLinesCh content.toList).filter
    (fun l => stripCh l ≠ [] && (parseDoc true (stripCh l)).isSome)).length

/-! ## The spec's sniffing rule, for comparison with the code's -/

/-- Follows the spec's words, not the code: "inspect the first non-whitespace
character; `[` ⇒ array-of-objects mode, anything else ⇒ newline-delimited
mode". -/
def specArrayMode (content : String) : Bool :=
  (content.toList.dropWhile isPyWs).head? = some '['

/-- Follows the spec's words, not the code: `read_json` with the spec's
sniffing rule in place of the code's first-character test. -/
def specReadJson (f : SrcFile) : Except String (List PyRec) :=
  if f.readable = false then .error ("OSError opening " ++ f.name)
  else if specArrayMode f.content then
    match loads f.content with
    | some (.arr xs) => .ok (xs.map .jv)
    | _ => .error ("JSONDecodeError: " ++ f.name)
  else .ok ((ndjsonVals f.content).map .jv)

/-! ## Structural lemmas about the serializer -/

/-- Induction over `JVal` (nested through `List`), phrased with membership
hypotheses. -/
theorem JVal.indOn (P : JVal → Prop)
    (hnull : P .null) (hbool : ∀ b, P (.bool b)) (hnum : ∀ n, P (.num n))
    (hnan : P .nan) (hstr : ∀ s, P (.str s))
    (harr : ∀ xs, (∀ x ∈ xs, P x) → P (.arr xs))
    (hobj : ∀ ms, (∀ kv ∈ ms, P kv.2) → P (.obj ms)) : ∀ v, P v := by
  have key : ∀ n v, sizeOf v < n → P v := by
    intro n
    induction n with
    | zero => exact fun v hv => absurd hv (Nat.not_lt_zero _)
    | succ n ih =>
      intro v hv
      cases v with
      | null => exact hnull
      | bool b => exact hbool b
      | num m => exact hnum m
      | nan => exact hnan
      | str s => exact hstr s
      | arr xs =>
        refine harr xs (fun x hx => ih x ?_)
        have h1 : sizeOf x < sizeOf xs := List.sizeOf_lt_of_mem hx
        have h2 : sizeOf (JVal.arr xs) = 1 + sizeOf xs := by simp
        omega
      | obj ms =>
        refine hobj ms (fun kv hkv => ih kv.2 ?_)
        have h1 : sizeOf kv < sizeOf ms := List.sizeOf_lt_of_mem hkv
        have h2 : sizeOf kv.2 < sizeOf kv := by
          obtain ⟨k, w⟩ := kv
          simp
        have h3 : sizeOf (JVal.obj ms) = 1 + sizeOf ms := by simp
        omega
  exact fun v => key (sizeOf v + 1) v (Nat.lt_succ_self _)

theorem isDigitC_digitChar {d : Nat} (h : d < 10) : isDigitC (digitChar d) = true := by
  interval_cases d <;> decide

theorem isHexC_hexChar {d : Nat} (h : d < 16) : isHexC (hexChar d) = true := by
  interval_cases d <;> decide

/-- A digit character differs from every non-digit character. -/
theorem ne_of_digitC {c d : Char} (hc : isDigitC c = true) (hd : isDigitC d = false) :
    c ≠ d := by
  intro e
  rw [e, hd] at hc
  exact Bool.false_ne_true hc

/-- A digit character is not JSON whitespace. -/
theorem jws_of_digitC {c : Char} (hc : isDigitC c = true) : isJWs c = false := by
  have h1 : c ≠ ' ' := ne_of_digitC hc (by decide)
  have h2 : c ≠ '\t' := ne_of_digitC hc (by decide)
  have h3 : c ≠ '\n' := ne_of_digitC hc (by decide)
  have h4 : c ≠ '\r' := ne_of_digitC hc (by decide)
  simp [isJWs, h1, h2, h3, h4]

/-- A hex-digit character differs from every non-hex-digit character. -/
theorem ne_of_hexC {c d : Char} (hc : isHexC c = true) (hd : isHexC d = false) :
    c ≠ d := by
  intro e
  rw [e, hd] at hc
  exact Bool.false_ne_true hc

theorem natDigitsAux_digits :
    ∀ fuel n, ∀ c ∈ natDigitsAux fuel n, isDigitC c = true := by
  intro fuel
  induction fuel with
  | zero => intro n c hc; simp [natDigitsAux] at hc
  | succ fuel ih =>
    intro n c hc
    unfold natDigitsAux at hc
    split at hc
    · simp at hc
      subst hc
      exact isDigitC_digitChar (by omega)
    · simp at hc
      rcases hc with hc | hc
      · exact ih _ _ hc
      · subst hc
        exact isDigitC_digitChar (Nat.mod_lt _ (by omega))

theorem natDigits_digits {n : Nat} : ∀ c ∈ natDigits n, isDigitC c = true :=
  natDigitsAux_digits _ _

theorem natDigits_ne_nil (n : Nat) : natDigits n ≠ [] := by
  unfold natDigits natDigitsAux
  split <;> simp

/-- Every character of `intRepr n` is a digit or the minus sign. -/
theorem intRepr_chars {n : Int} : ∀ c ∈ intRepr n, isDigitC c = true ∨ c = '-' := by
  intro c hc
  cases n with
  | ofNat m => exact Or.inl (natDigits_digits c hc)
  | negSucc m =>
    simp [intRepr] at hc
    rcases hc with hc | hc
    · exact Or.inr hc
    · exact Or.inl (natDigits_digits c hc)

/-- The serialization of a value is never empty. -/
theorem dumpChars_ne_nil (v : JVal) : dumpChars v ≠ [] := by
  cases v with
  | null => decide
  | bool b => cases b <;> decide
  | num n =>
    cases n with
    | ofNat m => simpa [dumpChars, intRepr] using natDigits_ne_nil m
    | negSucc m => simp [dumpChars, intRepr]
  | nan => decide
  | str s => simp [dumpChars, quoteString]
  | arr xs => simp [dumpChars]
  | obj ms => simp [dumpChars]

/-- The first character of a serialized value: never whitespace, never a
closing bracket or brace. -/
theorem dumpChars_head (v : JVal) :
    ∃ c t, dumpChars v = c :: t ∧ isJWs c = false ∧ c ≠ ']' ∧ c ≠ '\x7d' := by
  cases v with
  | null => refine ⟨'n', _, rfl, ?_, ?_, ?_⟩ <;> decide
  | bool b =>
    cases b
    · refine ⟨'f', _, rfl, ?_, ?_, ?_⟩ <;> decide
    · refine ⟨'t', _, rfl, ?_, ?_, ?_⟩ <;> decide
  | num n =>
    cases n with
    | ofNat m =>
      rcases hnd : natDigits m with _ | ⟨c, t⟩
      · exact absurd hnd (natDigits_ne_nil m)
      · have hd : isDigitC c = true := natDigits_digits c (hnd ▸ List.mem_cons_self c t)
        exact ⟨c, t, by simp [dumpChars, intRepr, hnd], jws_of_digitC hd,
          ne_of_digitC hd (by decide), ne_of_digitC hd (by decide)⟩
    | negSucc m =>
      exact ⟨'-', natDigits (m + 1), by simp [dumpChars, intRepr], by decide, by decide,
        by decide⟩
  | nan => refine ⟨'N', _, rfl, ?_, ?_, ?_⟩ <;> decide
  | str s => refine ⟨'"', _, rfl, ?_, ?_, ?_⟩ <;> decide
  | arr xs => refine ⟨'[', _, rfl, ?_, ?_, ?_⟩ <;> decide
  | obj ms => refine ⟨'\x7b', _, rfl, ?_, ?_, ?_⟩ <;> decide

theorem skipWs_cons_of {c : Char} {t : List Char} (h : isJWs c = false) :
    skipWs (c :: t) = c :: t := by
  simp [skipWs, h]

theorem skipWs_cons_ws {c : Char} {t : List Char} (h : isJWs c = true) :
    skipWs (c :: t) = skipWs t := by
  simp [skipWs, h]

/-- `skipWs` does not move past the first character of a serialized value. -/
theorem skipWs_dump (v : JVal) (X : List Char) :
    skipWs (dumpChars v ++ X) = dumpChars v ++ X := by
  obtain ⟨c, t, he, hws, -, -⟩ := dumpChars_head v
  rw [he, List.cons_append, skipWs_cons_of hws]

/-- A maximal digit run stops exactly at a stopper continuation. -/
theorem takeDigits_exact {ds rest : List Char} (hds : ∀ c ∈ ds, isDigitC c = true)
    (hrest : stopper rest = true) : takeDigits (ds ++ rest) = (ds, rest) := by
  induction ds with
  | nil =>
    simp only [List.nil_append]
    cases rest with
    | nil => rfl
    | cons c t =>
      have hc : isDigitC c = false := by
        simp [stopper] at hrest
        rcases hrest with (h | h) | h <;> subst h <;> decide
      simp [takeDigits, hc]
  | cons d ds ih =>
    have hd : isDigitC d = true := hds d (List.mem_cons_self d ds)
    have ih2 := ih (fun c hc => hds c (List.mem_cons_of_mem d hc))
    simp [takeDigits, hd, ih2]

example : takeDigits ['4', '2', ','] = (['4', '2'], [',']) := rfl


/-- A two-character escape steps the string scanner by one decoded char. -/
theorem escStep (e d : Char) (he : escDecode e = some d) (X : List Char) :
    pStrBody ('\\' :: e :: X) = (pStrBody X).map (fun p => (d :: p.1, p.2)) := by
  have hu : e ≠ 'u' := by
    intro h
    rw [h] at he
    simp [escDecode] at he
  rw [pStrBody]
  · simp [hu, he]
  · intro h1 h2 h3 h4 rest3 heq _
    exact hu heq

/-- A `\uXXXX` escape steps the string scanner by one decoded char. -/
theorem esc4_step (n : Nat) (X : List Char) :
    ∃ d, pStrBody (esc4 n ++ X) = (pStrBody X).map (fun p => (d :: p.1, p.2)) := by
  have e1 : isHexC (hexChar (n / 4096 % 16)) = true := isHexC_hexChar (Nat.mod_lt _ (by omega))
  have e2 : isHexC (hexChar (n / 256 % 16)) = true := isHexC_hexChar (Nat.mod_lt _ (by omega))
  have e3 : isHexC (hexChar (n / 16 % 16)) = true := isHexC_hexChar (Nat.mod_lt _ (by omega))
  have e4 : isHexC (hexChar (n % 16)) = true := isHexC_hexChar (Nat.mod_lt _ (by omega))
  refine ⟨Char.ofNat (hexVal (hexChar (n / 4096 % 16)) * 4096
    + hexVal (hexChar (n / 256 % 16)) * 256
    + hexVal (hexChar (n / 16 % 16)) * 16 + hexVal (hexChar (n % 16))), ?_⟩
  rw [show esc4 n ++ X = '\\' :: 'u' :: hexChar (n / 4096 % 16) :: hexChar (n / 256 % 16)
    :: hexChar (n / 16 % 16) :: hexChar (n % 16) :: X from rfl]
  rw [pStrBody]
  simp [e1, e2, e3, e4]

/-- The scanner consumes exactly the `json.dump` rendering of a string body
and its closing quote, whatever the remaining input. -/
theorem pStr_quote : ∀ (l : List Char) (rest : List Char),
    ∃ out, pStrBody (quoteBody l ++ '"' :: rest) = some (out, rest) := by
  intro l
  induction l with
  | nil =>
    intro rest
    refine ⟨[], ?_⟩
    rw [show quoteBody [] ++ '"' :: rest = '"' :: rest from rfl, pStrBody.eq_def]
    simp
  | cons c t ih =>
    intro rest
    obtain ⟨out, hout⟩ := ih rest
    have hstep : quoteBody (c :: t) ++ '"' :: rest
        = quoteChar c ++ (quoteBody t ++ '"' :: rest) := by
      simp [quoteBody]
    rw [hstep]
    by_cases h1 : c = '"'
    · subst h1
      exact ⟨'"' :: out, by rw [show quoteChar '"' ++ (quoteBody t ++ '"' :: rest)
          = '\\' :: '"' :: (quoteBody t ++ '"' :: rest) from rfl,
        escStep '"' '"' (by decide), hout]; rfl⟩
    · by_cases h2 : c = '\\'
      · subst h2
        exact ⟨'\\' :: out, by rw [show quoteChar '\\' ++ (quoteBody t ++ '"' :: rest)
            = '\\' :: '\\' :: (quoteBody t ++ '"' :: rest) from rfl,
          escStep '\\' '\\' (by decide), hout]; rfl⟩
      · by_cases h3 : c = '\n'
        · subst h3
          exact ⟨'\n' :: out, by rw [show quoteChar '\n' ++ (quoteBody t ++ '"' :: rest)
              = '\\' :: 'n' :: (quoteBody t ++ '"' :: rest) from rfl,
            escStep 'n' '\n' (by decide), hout]; rfl⟩
        · by_cases h4 : c = '\r'
          · subst h4
            exact ⟨'\r' :: out, by rw [show quoteChar '\r' ++ (quoteBody t ++ '"' :: rest)
                = '\\' :: 'r' :: (quoteBody t ++ '"' :: rest) from rfl,
              escStep 'r' '\r' (by decide), hout]; rfl⟩
          · by_cases h5 : c = '\t'
            · subst h5
              exact ⟨'\t' :: out, by rw [show quoteChar '\t' ++ (quoteBody t ++ '"' :: rest)
                  = '\\' :: 't' :: (quoteBody t ++ '"' :: rest) from rfl,
                escStep 't' '\t' (by decide), hout]; rfl⟩
            · by_cases h6 : c = '\x08'
              · subst h6
                exact ⟨'\x08' :: out, by rw [show quoteChar '\x08' ++ (quoteBody t ++ '"' :: rest)
                    = '\\' :: 'b' :: (quoteBody t ++ '"' :: rest) from rfl,
                  escStep 'b' '\x08' (by decide), hout]; rfl⟩
              · by_cases h7 : c = '\x0c'
                · subst h7
                  exact ⟨'\x0c' :: out, by rw [show quoteChar '\x0c' ++ (quoteBody t ++ '"' :: rest)
                      = '\\' :: 'f' :: (quoteBody t ++ '"' :: rest) from rfl,
                    escStep 'f' '\x0c' (by decide), hout]; rfl⟩
                · by_cases hc32 : c.toNat < 32
                  · obtain ⟨d, hd⟩ := esc4_step c.toNat (quoteBody t ++ '"' :: rest)
                    refine ⟨d :: out, ?_⟩
                    rw [show quoteChar c = esc4 c.toNat from by
                      simp [quoteChar, h1, h2, h3, h4, h5, h6, h7, hc32]]
                    rw [hd, hout]
                    rfl
                  · by_cases hc127 : c.toNat < 127
                    · refine ⟨c :: out, ?_⟩
                      rw [show quoteChar c = [c] from by
                        simp [quoteChar, h1, h2, h3, h4, h5, h6, h7, hc32, hc127]]
                      rw [show [c] ++ (quoteBody t ++ '"' :: rest)
                          = c :: (quoteBody t ++ '"' :: rest) from rfl]
                      rw [pStrBody.eq_def]
                      simp [h1, h2, hc32, hout]
                    · by_cases hc64 : c.toNat < 65536
                      · obtain ⟨d, hd⟩ := esc4_step c.toNat (quoteBody t ++ '"' :: rest)
                        refine ⟨d :: out, ?_⟩
                        rw [show quoteChar c = esc4 c.toNat from by
                          simp [quoteChar, h1, h2, h3, h4, h5, h6, h7, hc32, hc127, hc64]]
                        rw [hd, hout]
                        rfl
                      · obtain ⟨d2, hd2⟩ :=
                          esc4_step (56320 + (c.toNat - 65536) % 1024) (quoteBody t ++ '"' :: rest)
                        obtain ⟨d1, hd1⟩ :=
                          esc4_step (55296 + (c.toNat - 65536) / 1024)
                            (esc4 (56320 + (c.toNat - 65536) % 1024)
                              ++ (quoteBody t ++ '"' :: rest))
                        refine ⟨d1 :: d2 :: out, ?_⟩
                        rw [show quoteChar c
                            = esc4 (55296 + (c.toNat - 65536) / 1024)
                              ++ esc4 (56320 + (c.toNat - 65536) % 1024) from by
                          simp [quoteChar, h1, h2, h3, h4, h5, h6, h7, hc32, hc127, hc64]]
                        rw [List.append_assoc, hd1, hd2, hout]
                        rfl

/-- A non-empty element list's rendering starts with its first element's. -/
theorem dumpElems_cons (x : JVal) (t : List JVal) :
    ∃ Z, dumpElems (x :: t) = dumpChars x ++ Z := by
  cases t with
  | nil => exact ⟨[], by simp [dumpElems]⟩
  | cons y t2 => exact ⟨',' :: ' ' :: dumpElems (y :: t2), by simp [dumpElems]⟩

/-- A non-empty member list's rendering starts with a quote. -/
theorem dumpMems_cons (k : String) (v : JVal) (t : List (String × JVal)) :
    ∃ W, dumpMems ((k, v) :: t) = '"' :: W := by
  cases t with
  | nil =>
    exact ⟨quoteBody k.toList ++ '"' :: ':' :: ' ' :: dumpChars v,
      by simp [dumpMems, quoteString]⟩
  | cons m t2 =>
    exact ⟨quoteBody k.toList ++ '"' :: ':' :: ' ' ::
        (dumpChars v ++ ',' :: ' ' :: dumpMems (m :: t2)),
      by simp [dumpMems, quoteString]⟩

/-- Completeness of the scanner on serializer output: with enough fuel, the
parser consumes exactly the rendering of any value (and of any non-empty
array element or object member list) and leaves the continuation untouched. -/
theorem parseComp : ∀ fuel : Nat,
    (∀ v rest, stopper rest = true → (dumpChars v).length < fuel →
      ∃ w, pVal true fuel (dumpChars v ++ rest) = some (w, rest)) ∧
    (∀ xs rest, xs ≠ [] → stopper rest = true → (dumpElems xs).length + 1 < fuel →
      ∃ ws, pItems true fuel (dumpElems xs ++ ']' :: rest) = some (ws, rest)) ∧
    (∀ ms rest, ms ≠ [] → stopper rest = true → (dumpMems ms).length + 1 < fuel →
      ∃ ps, pMems true fuel (dumpMems ms ++ '\x7d' :: rest) = some (ps, rest)) := by
  intro fuel
  induction fuel with
  | zero =>
    exact ⟨fun v rest _ h => absurd h (by omega),
      fun xs rest _ _ h => absurd h (by omega),
      fun ms rest _ _ h => absurd h (by omega)⟩
  | succ fuel ih =>
    obtain ⟨ihV, ihI, ihM⟩ := ih
    refine ⟨?_, ?_, ?_⟩
    · intro v rest hstop hlen
      cases v with
      | null =>
        refine ⟨.null, ?_⟩
        rw [show dumpChars .null ++ rest = 'n' :: 'u' :: 'l' :: 'l' :: rest from rfl, pVal]
        simp [expectLit, List.isPrefixOf]
      | bool b =>
        cases b with
        | false =>
          refine ⟨.bool false, ?_⟩
          rw [show dumpChars (.bool false) ++ rest
              = 'f' :: 'a' :: 'l' :: 's' :: 'e' :: rest from rfl, pVal]
          simp [expectLit, List.isPrefixOf]
        | true =>
          refine ⟨.bool true, ?_⟩
          rw [show dumpChars (.bool true) ++ rest
              = 't' :: 'r' :: 'u' :: 'e' :: rest from rfl, pVal]
          simp [expectLit, List.isPrefixOf]
      | nan =>
        refine ⟨.nan, ?_⟩
        rw [show dumpChars .nan ++ rest = 'N' :: 'a' :: 'N' :: rest from rfl, pVal]
        simp [expectLit, List.isPrefixOf]
      | num n =>
        cases n with
        | ofNat m =>
          rcases hnd : natDigits m with _ | ⟨c0, t0⟩
          · exact absurd hnd (natDigits_ne_nil m)
          · have hdigits : ∀ c ∈ c0 :: t0, isDigitC c = true := by
              rw [← hnd]
              exact natDigits_digits
            have hd : isDigitC c0 = true := hdigits c0 (List.mem_cons_self _ _)
            have hTD : takeDigits ((c0 :: t0) ++ rest) = (c0 :: t0, rest) :=
              takeDigits_exact hdigits hstop
            have e1 : c0 ≠ 't' := ne_of_digitC hd (by decide)
            have e2 : c0 ≠ 'f' := ne_of_digitC hd (by decide)
            have e3 : c0 ≠ 'n' := ne_of_digitC hd (by decide)
            have e4 : c0 ≠ 'N' := ne_of_digitC hd (by decide)
            have e5 : c0 ≠ '"' := ne_of_digitC hd (by decide)
            have e6 : c0 ≠ '[' := ne_of_digitC hd (by decide)
            have e7 : c0 ≠ '\x7b' := ne_of_digitC hd (by decide)
            have e8 : c0 ≠ '-' := ne_of_digitC hd (by decide)
            have hTD2 : takeDigits (c0 :: (t0 ++ rest)) = (c0 :: t0, rest) := by
              rw [← List.cons_append]
              exact hTD
            refine ⟨.num (digitsVal (c0 :: t0)), ?_⟩
            rw [show dumpChars (.num (Int.ofNat m)) = c0 :: t0 from by
              rw [show dumpChars (.num (Int.ofNat m)) = natDigits m from by
                simp [dumpChars, intRepr]]
              exact hnd]
            rw [List.cons_append, pVal]
            simp [e1, e2, e3, e4, e5, e6, e7, e8, pNum, hTD2]
        | negSucc m =>
          have hTD : takeDigits (natDigits (m + 1) ++ rest) = (natDigits (m + 1), rest) :=
            takeDigits_exact natDigits_digits hstop
          refine ⟨.num (-(digitsVal (natDigits (m + 1)) : Int)), ?_⟩
          rw [show dumpChars (.num (Int.negSucc m)) ++ rest
              = '-' :: (natDigits (m + 1) ++ rest) from by simp [dumpChars, intRepr], pVal]
          simp [pNum, hTD, natDigits_ne_nil]
      | str s =>
        obtain ⟨out, hstr⟩ := pStr_quote s.toList rest
        refine ⟨.str (String.mk out), ?_⟩
        rw [show dumpChars (.str s) ++ rest
            = '"' :: (quoteBody s.toList ++ '"' :: rest) from by
          simp [dumpChars, quoteString], pVal]
        simp only [reduceIte]
        simp
        exact ⟨out, hstr, rfl⟩
      | arr xs =>
        cases xs with
        | nil =>
          refine ⟨.arr [], ?_⟩
          rw [show dumpChars (.arr []) ++ rest = '[' :: ']' :: rest from by
            simp [dumpChars, dumpElems], pVal]
          simp [skipWs, isJWs]
        | cons x t =>
          have hx1 : (dumpChars (.arr (x :: t))).length = (dumpElems (x :: t)).length + 2 := by
            simp [dumpChars]
          obtain ⟨Z, hZ⟩ := dumpElems_cons x t
          obtain ⟨c0, t0, hhead, hws0, hne1, hne2⟩ := dumpChars_head x
          have hcons : dumpElems (x :: t) ++ ']' :: rest
              = c0 :: (t0 ++ (Z ++ ']' :: rest)) := by
            rw [hZ, hhead]
            simp
          obtain ⟨ws, hI⟩ := ihI (x :: t) rest (by simp) hstop (by omega)
          have hI2 : pItems true fuel (c0 :: (t0 ++ (Z ++ ']' :: rest))) = some (ws, rest) := by
            rw [← hcons]
            exact hI
          refine ⟨.arr ws, ?_⟩
          rw [show dumpChars (.arr (x :: t)) ++ rest
              = '[' :: (dumpElems (x :: t) ++ ']' :: rest) from by simp [dumpChars], pVal]
          rw [hcons, skipWs_cons_of hws0]
          simp [hne1, hI2]
      | obj ms =>
        cases ms with
        | nil =>
          refine ⟨.obj [], ?_⟩
          rw [show dumpChars (.obj []) ++ rest = '\x7b' :: '\x7d' :: rest from by
            simp [dumpChars, dumpMems], pVal]
          simp [skipWs, isJWs]
        | cons kv t =>
          obtain ⟨k0, v0⟩ := kv
          have hx1 : (dumpChars (.obj ((k0, v0) :: t))).length
              = (dumpMems ((k0, v0) :: t)).length + 2 := by
            simp [dumpChars]
          obtain ⟨W, hW⟩ := dumpMems_cons k0 v0 t
          have hcons : dumpMems ((k0, v0) :: t) ++ '\x7d' :: rest
              = '"' :: (W ++ '\x7d' :: rest) := by
            rw [hW]
            simp
          obtain ⟨ps, hM⟩ := ihM ((k0, v0) :: t) rest (by simp) hstop (by omega)
          have hM2 : pMems true fuel ('"' :: (W ++ '\x7d' :: rest)) = some (ps, rest) := by
            rw [← hcons]
            exact hM
          refine ⟨.obj ps, ?_⟩
          rw [show dumpChars (.obj ((k0, v0) :: t)) ++ rest
              = '\x7b' :: (dumpMems ((k0, v0) :: t) ++ '\x7d' :: rest) from by
            simp [dumpChars], pVal]
          rw [hcons, skipWs_cons_of (show isJWs '"' = false from by decide)]
          simp [hM2]
    · intro xs rest hne hstop hlen
      cases xs with
      | nil => exact absurd rfl hne
      | cons x t =>
        cases t with
        | nil =>
          have hd : dumpElems [x] = dumpChars x := by simp [dumpElems]
          rw [hd] at hlen
          obtain ⟨w, hV⟩ := ihV x (']' :: rest) (by simp [stopper]) (by omega)
          refine ⟨[w], ?_⟩
          rw [hd, pItems, hV]
          simp [skipWs, isJWs]
        | cons y t2 =>
          have hlde : (dumpElems (x :: y :: t2)).length
              = (dumpChars x).length + 2 + (dumpElems (y :: t2)).length := by
            simp [dumpElems]
            omega
          have hlx : 0 < (dumpChars x).length := List.length_pos.mpr (dumpChars_ne_nil x)
          have hsplit : dumpElems (x :: y :: t2) ++ ']' :: rest
              = dumpChars x ++ (',' :: ' ' :: (dumpElems (y :: t2) ++ ']' :: rest)) := by
            simp [dumpElems]
          obtain ⟨w, hV⟩ :=
            ihV x (',' :: ' ' :: (dumpElems (y :: t2) ++ ']' :: rest))
              (by simp [stopper]) (by omega)
          obtain ⟨Z, hZ⟩ := dumpElems_cons y t2
          have hsknext : skipWs (dumpElems (y :: t2) ++ ']' :: rest)
              = dumpElems (y :: t2) ++ ']' :: rest := by
            rw [hZ, List.append_assoc]
            exact skipWs_dump y (Z ++ ']' :: rest)
          obtain ⟨ws, hI⟩ := ihI (y :: t2) rest (by simp) hstop (by omega)
          refine ⟨w :: ws, ?_⟩
          rw [hsplit, pItems, hV]
          simp [skipWs, isJWs, hsknext, hI]
    · intro ms rest hne hstop hlen
      cases ms with
      | nil => exact absurd rfl hne
      | cons kv t =>
        obtain ⟨k0, v0⟩ := kv
        have hq : (quoteString k0).length = (quoteBody k0.toList).length + 2 := by
          simp [quoteString]
        cases t with
        | nil =>
          have hm : (dumpMems [(k0, v0)]).length
              = (quoteString k0).length + 2 + (dumpChars v0).length := by
            simp [dumpMems]
            omega
          have hform : dumpMems [(k0, v0)] ++ '\x7d' :: rest
              = '"' :: (quoteBody k0.toList ++ '"' ::
                  (':' :: ' ' :: (dumpChars v0 ++ '\x7d' :: rest))) := by
            simp [dumpMems, quoteString]
          obtain ⟨out, hstr⟩ :=
            pStr_quote k0.toList (':' :: ' ' :: (dumpChars v0 ++ '\x7d' :: rest))
          obtain ⟨w, hV⟩ := ihV v0 ('\x7d' :: rest) (by simp [stopper]) (by omega)
          have hstr2 : pStrBody (quoteBody k0.data
              ++ '"' :: ':' :: ' ' :: (dumpChars v0 ++ '\x7d' :: rest))
              = some (out, ':' :: ' ' :: (dumpChars v0 ++ '\x7d' :: rest)) := hstr
          refine ⟨[(String.mk out, w)], ?_⟩
          rw [hform, pMems]
          simp [hstr2, skipWs, isJWs, skipWs_dump, hV]
        | cons m2 t2 =>
          obtain ⟨k2, v2⟩ := m2
          have hm : (dumpMems ((k0, v0) :: (k2, v2) :: t2)).length
              = (quoteString k0).length + 2 + (dumpChars v0).length + 2
                + (dumpMems ((k2, v2) :: t2)).length := by
            simp [dumpMems]
            omega
          have hlv : 0 < (dumpChars v0).length := List.length_pos.mpr (dumpChars_ne_nil v0)
          have hform : dumpMems ((k0, v0) :: (k2, v2) :: t2) ++ '\x7d' :: rest
              = '"' :: (quoteBody k0.toList ++ '"' ::
                  (':' :: ' ' :: (dumpChars v0 ++ ',' :: ' ' ::
                    (dumpMems ((k2, v2) :: t2) ++ '\x7d' :: rest)))) := by
            simp [dumpMems, quoteString]
          obtain ⟨out, hstr⟩ :=
            pStr_quote k0.toList
              (':' :: ' ' :: (dumpChars v0 ++ ',' :: ' ' ::
                (dumpMems ((k2, v2) :: t2) ++ '\x7d' :: rest)))
          obtain ⟨w, hV⟩ :=
            ihV v0 (',' :: ' ' :: (dumpMems ((k2, v2) :: t2) ++ '\x7d' :: rest))
              (by simp [stopper]) (by omega)
          obtain ⟨W, hW⟩ := dumpMems_cons k2 v2 t2
          have hsk3 : skipWs (dumpMems ((k2, v2) :: t2) ++ '\x7d' :: rest)
              = dumpMems ((k2, v2) :: t2) ++ '\x7d' :: rest := by
            rw [hW, List.cons_append]
            exact skipWs_cons_of (show isJWs '"' = false from by decide)
          obtain ⟨ps, hM⟩ := ihM ((k2, v2) :: t2) rest (by simp) hstop (by omega)
          have hstr2 : pStrBody (quoteBody k0.data ++ '"' :: ':' :: ' ' ::
              (dumpChars v0 ++ ',' :: ' ' :: (dumpMems ((k2, v2) :: t2) ++ '\x7d' :: rest)))
              = some (out, ':' :: ' ' :: (dumpChars v0 ++ ',' :: ' ' ::
                (dumpMems ((k2, v2) :: t2) ++ '\x7d' :: rest))) := hstr
          refine ⟨(String.mk out, w) :: ps, ?_⟩
          rw [hform, pMems]
          simp [hstr2, skipWs, isJWs, skipWs_dump, hV, hsk3, hM]

/-- Any value serialised by `json.dump` is parsed back successfully by
`json.loads` (with its default `allow_nan=True`). -/
theorem loads_dumps_isSome (v : JVal) : (loads (dumps v)).isSome = true := by
  obtain ⟨w, hw⟩ := (parseComp ((dumpChars v).length + 1)).1 v [] rfl (Nat.lt_succ_self _)
  rw [List.append_nil] at hw
  have h2 : skipWs (dumpChars v) = dumpChars v := by
    have h := skipWs_dump v []
    rwa [List.append_nil] at h
  have hl : loads (dumps v) = some w := by
    unfold loads parseDoc
    rw [show (dumps v).toList = dumpChars v from rfl, h2]
    simp only [hw]
    simp [skipWs]
  rw [hl]
  rfl

/-- Any record line written by either pipeline parses under `json.loads`. -/
theorem loads_dumpsRec_isSome (r : PyRec) : (loads (dumpsRec r)).isSome = true :=
  loads_dumps_isSome _

/-- Every line `process_folder` writes is the `json.dump` of some record. -/
theorem process_folder_line (files : List SrcFile) (line : String)
    (hmem : line ∈ (process_folder files).lines) : ∃ r : PyRec, line = dumpsRec r := by
  induction files with
  | nil => simp [process_folder] at hmem
  | cons f rest ih =>
    by_cases hc : f.isFile && (suffixLower f.name = ".csv" || suffixLower f.name = ".json")
    · rw [process_folder] at hmem
      rcases hrr : read_records f with ⟨res, sk⟩
      rw [hrr] at hmem
      cases res with
      | error e =>
        simp [hc] at hmem
      | ok recs =>
        simp only [hc, if_true] at hmem
        rcases List.mem_append.mp hmem with h | h
        · obtain ⟨r, -, hr⟩ := List.mem_map.mp h
          exact ⟨r, hr.symm⟩
        · exact ih h
    · rw [process_folder] at hmem
      simp only [hc, if_false] at hmem
      exact ih hmem

/-- Every line `pd_process_folder` writes is the `json.dump` of some record. -/
theorem pd_process_folder_line (files : List SrcFile) (line : String)
    (hmem : line ∈ (pd_process_folder files).lines) : ∃ r : PyRec, line = dumpsRec r := by
  induction files with
  | nil => simp [pd_process_folder] at hmem
  | cons f rest ih =>
    rw [pd_process_folder] at hmem
    by_cases hf : f.isFile = false
    · simp only [hf, if_true] at hmem
      exact ih hmem
    · simp only [hf, if_false] at hmem
      by_cases hcsv : suffixLower f.name = ".csv"
      · simp only [hcsv, if_true] at hmem
        rcases hrr : read_pd_csv f with e | recs
        · rw [hrr] at hmem
          simp at hmem
        · rw [hrr] at hmem
          simp only [] at hmem
          rcases List.mem_append.mp hmem with h | h
          · obtain ⟨r, -, hr⟩ := List.mem_map.mp h
            exact ⟨r, hr.symm⟩
          · exact ih h
      · simp only [hcsv, if_false] at hmem
        by_cases hjson : suffixLower f.name = ".json"
        · simp only [hjson, if_true] at hmem
          rcases List.mem_append.mp hmem with h | h
          · obtain ⟨r, -, hr⟩ := List.mem_map.mp h
            exact ⟨r, hr.symm⟩
          · exact ih h
        · simp only [hjson, if_false] at hmem
          exact ih hmem

/-! ## Serialized records occupy exactly one line -/

theorem esc4_no_nl (n : Nat) : '\n' ∉ esc4 n := by
  have hx : ∀ m : Nat, ('\n' : Char) ≠ hexChar (m % 16) := fun m =>
    (ne_of_hexC (isHexC_hexChar (Nat.mod_lt _ (by omega))) (by decide)).symm
  intro hmem
  unfold esc4 at hmem
  rcases List.mem_cons.mp hmem with h | hmem
  · exact absurd h (by decide)
  rcases List.mem_cons.mp hmem with h | hmem
  · exact absurd h (by decide)
  rcases List.mem_cons.mp hmem with h | hmem
  · exact hx _ h
  rcases List.mem_cons.mp hmem with h | hmem
  · exact hx _ h
  rcases List.mem_cons.mp hmem with h | hmem
  · exact hx _ h
  rcases List.mem_cons.mp hmem with h | hmem
  · exact hx _ h
  exact absurd hmem (List.not_mem_nil _)

theorem quoteChar_no_nl (c : Char) : '\n' ∉ quoteChar c := by
  intro hmem
  by_cases h1 : c = '"'
  · rw [show quoteChar c = ['\\', '"'] from by simp [quoteChar, h1]] at hmem
    exact absurd hmem (by decide)
  by_cases h2 : c = '\\'
  · rw [show quoteChar c = ['\\', '\\'] from by simp [quoteChar, h1, h2]] at hmem
    exact absurd hmem (by decide)
  by_cases h3 : c = '\n'
  · rw [show quoteChar c = ['\\', 'n'] from by simp [quoteChar, h1, h2, h3]] at hmem
    exact absurd hmem (by decide)
  by_cases h4 : c = '\r'
  · rw [show quoteChar c = ['\\', 'r'] from by simp [quoteChar, h1, h2, h3, h4]] at hmem
    exact absurd hmem (by decide)
  by_cases h5 : c = '\t'
  · rw [show quoteChar c = ['\\', 't'] from by simp [quoteChar, h1, h2, h3, h4, h5]] at hmem
    exact absurd hmem (by decide)
  by_cases h6 : c = '\x08'
  · rw [show quoteChar c = ['\\', 'b'] from by
      simp [quoteChar, h1, h2, h3, h4, h5, h6]] at hmem
    exact absurd hmem (by decide)
  by_cases h7 : c = '\x0c'
  · rw [show quoteChar c = ['\\', 'f'] from by
      simp [quoteChar, h1, h2, h3, h4, h5, h6, h7]] at hmem
    exact absurd hmem (by decide)
  by_cases hc32 : c.toNat < 32
  · rw [show quoteChar c = esc4 c.toNat from by
      simp [quoteChar, h1, h2, h3, h4, h5, h6, h7, hc32]] at hmem
    exact esc4_no_nl _ hmem
  by_cases hc127 : c.toNat < 127
  · rw [show quoteChar c = [c] from by
      simp [quoteChar, h1, h2, h3, h4, h5, h6, h7, hc32, hc127]] at hmem
    simp at hmem
    exact h3 hmem.symm
  by_cases hc64 : c.toNat < 65536
  · rw [show quoteChar c = esc4 c.toNat from by
      simp [quoteChar, h1, h2, h3, h4, h5, h6, h7, hc32, hc127, hc64]] at hmem
    exact esc4_no_nl _ hmem
  · rw [show quoteChar c = esc4 (55296 + (c.toNat - 65536) / 1024)
        ++ esc4 (56320 + (c.toNat - 65536) % 1024) from by
      simp [quoteChar, h1, h2, h3, h4, h5, h6, h7, hc32, hc127, hc64]] at hmem
    rcases List.mem_append.mp hmem with h | h
    · exact esc4_no_nl _ h
    · exact esc4_no_nl _ h

theorem quoteBody_no_nl (l : List Char) : '\n' ∉ quoteBody l := by
  induction l with
  | nil => simp [quoteBody]
  | cons c t ih =>
    intro hmem
    rw [show quoteBody (c :: t) = quoteChar c ++ quoteBody t from rfl] at hmem
    rcases List.mem_append.mp hmem with h | h
    · exact quoteChar_no_nl c h
    · exact ih h

theorem quoteString_no_nl (s : String) : '\n' ∉ quoteString s := by
  intro hmem
  rw [show quoteString s = '"' :: quoteBody s.toList ++ ['"'] from rfl] at hmem
  rcases List.mem_cons.mp hmem with h | h
  · exact absurd h (by decide)
  · rcases List.mem_append.mp h with h2 | h2
    · exact quoteBody_no_nl _ h2
    · exact absurd h2 (by decide)

theorem intRepr_no_nl (n : Int) : '\n' ∉ intRepr n := by
  intro hmem
  rcases intRepr_chars '\n' hmem with h | h
  · exact absurd h (by decide)
  · exact absurd h (by decide)

/-- `json.dump` never emits a raw newline: every record is one output line. -/
theorem dumpChars_no_nl : ∀ v : JVal, '\n' ∉ dumpChars v := by
  have helems : ∀ xs : List JVal, (∀ x ∈ xs, '\n' ∉ dumpChars x) → '\n' ∉ dumpElems xs := by
    intro xs
    induction xs with
    | nil => simp [dumpElems]
    | cons x t iht =>
      intro hall
      cases t with
      | nil => simpa [dumpElems] using hall x (List.mem_cons_self _ _)
      | cons y t2 =>
        intro hmem
        rw [show dumpElems (x :: y :: t2)
            = dumpChars x ++ ',' :: ' ' :: dumpElems (y :: t2) from by simp [dumpElems]] at hmem
        rcases List.mem_append.mp hmem with h | h
        · exact hall x (List.mem_cons_self _ _) h
        · rcases List.mem_cons.mp h with h2 | h2
          · exact absurd h2 (by decide)
          · rcases List.mem_cons.mp h2 with h3 | h3
            · exact absurd h3 (by decide)
            · exact iht (fun z hz => hall z (List.mem_cons_of_mem _ hz)) h3
  have hmems : ∀ ms : List (String × JVal),
      (∀ kv ∈ ms, '\n' ∉ dumpChars kv.2) → '\n' ∉ dumpMems ms := by
    intro ms
    induction ms with
    | nil => simp [dumpMems]
    | cons kv t iht =>
      obtain ⟨k, v⟩ := kv
      intro hall
      cases t with
      | nil =>
        intro hmem
        rw [show dumpMems [(k, v)]
            = quoteString k ++ ':' :: ' ' :: dumpChars v from by simp [dumpMems]] at hmem
        rcases List.mem_append.mp hmem with h | h
        · exact quoteString_no_nl k h
        · rcases List.mem_cons.mp h with h2 | h2
          · exact absurd h2 (by decide)
          · rcases List.mem_cons.mp h2 with h3 | h3
            · exact absurd h3 (by decide)
            · exact hall (k, v) (List.mem_cons_self _ _) h3
      | cons m2 t2 =>
        intro hmem
        rw [show dumpMems ((k, v) :: m2 :: t2)
            = quoteString k ++ ':' :: ' ' ::
              (dumpChars v ++ ',' :: ' ' :: dumpMems (m2 :: t2)) from by
          simp [dumpMems]] at hmem
        rcases List.mem_append.mp hmem with h | h
        · exact quoteString_no_nl k h
        · rcases List.mem_cons.mp h with h2 | h2
          · exact absurd h2 (by decide)
          · rcases List.mem_cons.mp h2 with h3 | h3
            · exact absurd h3 (by decide)
            · rcases List.mem_append.mp h3 with h4 | h4
              · exact hall (k, v) (List.mem_cons_self _ _) h4
              · rcases List.mem_cons.mp h4 with h5 | h5
                · exact absurd h5 (by decide)
                · rcases List.mem_cons.mp h5 with h6 | h6
                  · exact absurd h6 (by decide)
                  · exact iht (fun z hz => hall z (List.mem_cons_of_mem _ hz)) h6
  refine JVal.indOn _ ?_ ?_ ?_ ?_ ?_ ?_ ?_
  · intro h
    exact absurd h (by decide)
  · intro b
    cases b <;> (intro h; exact absurd h (by decide))
  · intro n
    rw [show dumpChars (.num n) = intRepr n from by simp [dumpChars]]
    exact intRepr_no_nl n
  · intro h
    exact absurd h (by decide)
  · intro s
    rw [show dumpChars (.str s) = quoteString s from by simp [dumpChars]]
    exact quoteString_no_nl s
  · intro xs hIH hmem
    rw [show dumpChars (.arr xs) = '[' :: dumpElems xs ++ [']'] from by
      simp [dumpChars]] at hmem
    rcases List.mem_cons.mp hmem with h | h
    · exact absurd h (by decide)
    · rcases List.mem_append.mp h with h2 | h2
      · exact helems xs hIH h2
      · exact absurd h2 (by decide)
  · intro ms hIH hmem
    rw [show dumpChars (.obj ms) = '\x7b' :: dumpMems ms ++ ['\x7d'] from by
      simp [dumpChars]] at hmem
    rcases List.mem_cons.mp hmem with h | h
    · exact absurd h (by decide)
    · rcases List.mem_append.mp h with h2 | h2
      · exact hmems ms hIH h2
      · exact absurd h2 (by decide)

/-- With newline-free lines, the artifact has exactly one newline per line. -/
theorem artifact_count (ls : List String) (h : ∀ l ∈ ls, ('\n' : Char) ∉ l.toList) :
    newlineCount (artifactText ls) = ls.length := by
  induction ls with
  | nil => rfl
  | cons l t ih =>
    have hl : (l.toList).count '\n' = 0 :=
      List.count_eq_zero.mpr (h l (List.mem_cons_self _ _))
    have ht := ih (fun x hx => h x (List.mem_cons_of_mem _ hx))
    unfold newlineCount at ht ⊢
    rw [show artifactText (l :: t) = l ++ "\n" ++ artifactText t from rfl]
    rw [show (l ++ "\n" ++ artifactText t).toList
        = l.toList ++ ('\n' :: (artifactText t).toList) from by simp [String.toList]]
    rw [List.count_append, hl]
    simp
    exact ht

/-- A dumped record contains no newline. -/
theorem dumpsRec_no_nl (r : PyRec) : ('\n' : Char) ∉ (dumpsRec r).toList := by
  rw [show (dumpsRec r).toList = dumpChars (pyToJVal r) from rfl]
  exact dumpChars_no_nl _

/-- `filterMap` by a parser keeps exactly the entries the corresponding
filter predicate accepts. -/
theorem filterMap_length_eq (ls : List (List Char)) :
    ((ls.filterMap (fun l => if stripCh l = [] then none else parseDoc true (stripCh l))).length)
      = ((ls.filter (fun l => stripCh l ≠ [] && (parseDoc true (stripCh l)).isSome)).length) := by
  induction ls with
  | nil => rfl
  | cons l t ih =>
    by_cases hb : stripCh l = []
    · simp [List.filterMap_cons, List.filter_cons, hb, ih]
    · rcases hp : parseDoc true (stripCh l) with _ | v
      · simp [List.filterMap_cons, List.filter_cons, hb, hp, ih]
      · simp [List.filterMap_cons, List.filter_cons, hb, hp, ih]

/-- The record count of the ndjson reader is the successfully-parsed line
count. -/
theorem ndjsonVals_length (content : String) :
    (ndjsonVals content).length = ndjsonOkLineCount content := by
  unfold ndjsonVals ndjsonOkLineCount
  exact filterMap_length_eq _

/-- The record count of `read_csv` is the data-row count. -/
theorem read_csv_length (content : String) :
    (read_csv content).length = csvDataRowCount content := by
  unfold read_csv csvDataRowCount
  cases csvRows content <;> simp

/-! ## Folder-level record accounting -/

/-- On a folder of readable CSV and newline-delimited JSON regular files,
`process_folder` finishes cleanly and writes one line per CSV data row and
per successfully-parsed JSON line. -/
theorem process_folder_count (files : List SrcFile)
    (h : ∀ f ∈ files, f.isFile = true ∧ f.readable = true ∧
      (suffixLower f.name = ".csv"
        ∨ (suffixLower f.name = ".json" ∧ jsonArrayMode f.content = false))) :
    (process_folder files).lines.length
      = ((files.filter (fun f => suffixLower f.name = ".csv")).map
          (fun f => csvDataRowCount f.content)).sum
        + ((files.filter (fun f => suffixLower f.name = ".json")).map
          (fun f => ndjsonOkLineCount f.content)).sum
    ∧ (process_folder files).errAt = none := by
  induction files with
  | nil => exact ⟨rfl, rfl⟩
  | cons f rest ih =>
    obtain ⟨hf, hr, hext⟩ := h f (List.mem_cons_self _ _)
    obtain ⟨ih1, ih2⟩ := ih (fun x hx => h x (List.mem_cons_of_mem _ hx))
    rcases hext with hcsv | ⟨hjson, harr⟩
    · have hcond : (f.isFile
          && (suffixLower f.name = ".csv" || suffixLower f.name = ".json")) = true := by
        simp [hf, hcsv]
      have hne : suffixLower f.name ≠ ".json" := by
        rw [hcsv]
        decide
      have hrr : read_records f = (.ok (read_csv f.content), []) := by
        simp [read_records, hcsv, hr]
      constructor
      · rw [process_folder, hrr]
        simp only [hcond, if_true]
        simp [List.filter_cons, hcsv, hne, read_csv_length, ih1]
        omega
      · rw [process_folder, hrr]
        simp [hcond, ih2]
    · have hcond : (f.isFile
          && (suffixLower f.name = ".csv" || suffixLower f.name = ".json")) = true := by
        simp [hf, hjson]
      have hne : suffixLower f.name ≠ ".csv" := by
        rw [hjson]
        decide
      have hrj : read_json f = .ok ((ndjsonVals f.content).map .jv) := by
        simp [read_json, hr, harr]
      have hrr : read_records f = (.ok ((ndjsonVals f.content).map .jv), []) := by
        simp [read_records, hne, hjson, hrj]
      constructor
      · rw [process_folder, hrr]
        simp only [hcond, if_true]
        simp [List.filter_cons, hjson, hne, ndjsonVals_length, ih1]
        omega
      · rw [process_folder, hrr]
        simp [hcond, ih2]

/-! ## Python dict lemmas for `csv.DictReader` rows -/

theorem dictInsert_fresh (d : RowD) (k : Option String) (v : JVal)
    (h : k ∉ d.map (fun p => p.1)) : dictInsert d k v = d ++ [(k, v)] := by
  induction d with
  | nil => rfl
  | cons p t ih =>
    obtain ⟨k0, v0⟩ := p
    have h2 : ¬(k = k0 ∨ k ∈ t.map (fun p => p.1)) := by
      simpa using h
    push_neg at h2
    rw [show dictInsert ((k0, v0) :: t) k v
        = if k0 = k then (k0, v) :: t else (k0, v0) :: dictInsert t k v from rfl]
    rw [if_neg (fun e => h2.1 e.symm), ih h2.2]
    rfl

theorem foldl_dictInsert (pairs : List (Option String × JVal)) :
    ∀ d : RowD, (∀ p ∈ pairs, p.1 ∉ d.map (fun q => q.1)) →
    (pairs.map (fun p => p.1)).Nodup →
    pairs.foldl (fun d p => dictInsert d p.1 p.2) d = d ++ pairs := by
  induction pairs with
  | nil => simp
  | cons p t ih =>
    intro d hfresh hnd
    obtain ⟨k, v⟩ := p
    rw [List.foldl_cons]
    rw [show dictInsert d (k, v).1 (k, v).2 = dictInsert d k v from rfl]
    rw [dictInsert_fresh d k v (hfresh (k, v) (List.mem_cons_self _ _))]
    have hnd2 : (t.map (fun p => p.1)).Nodup := by
      simpa using hnd.of_cons
    have hk : k ∉ t.map (fun p => p.1) := by
      have h3 : (k :: t.map (fun p => p.1)).Nodup := by simpa using hnd
      exact (List.nodup_cons.mp h3).1
    rw [ih (d ++ [(k, v)]) ?_ hnd2]
    · simp
    · intro q hq
      simp only [List.map_append, List.mem_append]
      push_neg
      refine ⟨fun hin => hfresh q (List.mem_cons_of_mem _ hq) hin, ?_⟩
      simp only [List.map_cons, List.map_nil, List.mem_singleton]
      intro he
      exact hk (he ▸ List.mem_map_of_mem (fun p => p.1) hq)

theorem map_fst_zip_take (as bs : List String) :
    (as.zip bs).map Prod.fst = as.take bs.length := by
  induction as generalizing bs with
  | nil => simp
  | cons a t ih =>
    cases bs with
    | nil => simp
    | cons b tb => simp [ih]

/-! ## File-system lemmas for the truncating open -/

theorem fsSet_idem (fs : List (String × String)) (k v : String) :
    fsSet (fsSet fs k v) k v = fsSet fs k v := by
  induction fs with
  | nil => simp [fsSet]
  | cons p t ih =>
    obtain ⟨k0, v0⟩ := p
    by_cases hk : k0 = k
    · simp [fsSet, hk]
    · simp [fsSet, hk, ih]

theorem fsGet_fsSet (fs : List (String × String)) (k v : String) :
    fsGet (fsSet fs k v) k = some v := by
  induction fs with
  | nil => simp [fsSet, fsGet]
  | cons p t ih =>
    obtain ⟨k0, v0⟩ := p
    by_cases hk : k0 = k
    · simp [fsSet, fsGet, hk]
    · simp [fsSet, fsGet, hk, ih]

/-- For a data row no wider than the header, under distinct header names, a
`DictReader` row is the zip of header and row padded with `None` fills — in
particular its keys are exactly the header names in header order. -/
theorem mkDictRow_short (header row : List String)
    (hnd : header.Nodup) (hlen : row.length ≤ header.length) :
    mkDictRow header row
      = ((header.zip row).map (fun p => ((some p.1 : Option String), JVal.str p.2)))
        ++ ((header.drop row.length).map (fun k => ((some k : Option String), JVal.null))) := by
  have hkeys1 : ((header.zip row).map
        (fun p => ((some p.1 : Option String), JVal.str p.2))).map (fun p => p.1)
      = (header.take row.length).map some := by
    rw [List.map_map]
    rw [show ((fun p => p.1) ∘ fun (p : String × String)
        => ((some p.1 : Option String), JVal.str p.2))
      = (fun p => (some p.1 : Option String)) from rfl]
    rw [show (fun (p : String × String) => (some p.1 : Option String))
        = some ∘ Prod.fst from rfl]
    rw [← List.map_map, map_fst_zip_take]
  have hnd1 : (((header.zip row).map
      (fun p => ((some p.1 : Option String), JVal.str p.2))).map (fun p => p.1)).Nodup := by
    rw [hkeys1]
    exact (hnd.sublist (List.take_sublist _ _)).map (Option.some_injective _)
  have hndsplit : (header.take row.length ++ header.drop row.length).Nodup := by
    rw [List.take_append_drop]
    exact hnd
  have hdisj := List.disjoint_of_nodup_append hndsplit
  unfold mkDictRow
  rw [if_neg (by omega)]
  have h1 : (header.zip row).foldl (fun d p => dictInsert d (some p.1) (.str p.2)) []
      = (header.zip row).map (fun p => ((some p.1 : Option String), JVal.str p.2)) := by
    rw [show (header.zip row).foldl (fun d p => dictInsert d (some p.1) (.str p.2)) []
        = ((header.zip row).map
            (fun p => ((some p.1 : Option String), JVal.str p.2))).foldl
            (fun d p => dictInsert d p.1 p.2) [] from
      (List.foldl_map
        (fun (p : String × String) => ((some p.1 : Option String), JVal.str p.2))
        (fun d p => dictInsert d p.1 p.2) (header.zip row) []).symm]
    rw [foldl_dictInsert _ [] (by simp) hnd1]
    simp
  rw [h1]
  rw [show (header.drop row.length).foldl (fun d k => dictInsert d (some k) .null)
        ((header.zip row).map (fun p => ((some p.1 : Option String), JVal.str p.2)))
      = ((header.drop row.length).map
          (fun k => ((some k : Option String), JVal.null))).foldl
          (fun d p => dictInsert d p.1 p.2)
          ((header.zip row).map (fun p => ((some p.1 : Option String), JVal.str p.2)))
        from
      (List.foldl_map (fun k => ((some k : Option String), JVal.null))
        (fun d p => dictInsert d p.1 p.2) (header.drop row.length)
        ((header.zip row).map
          (fun p => ((some p.1 : Option String), JVal.str p.2)))).symm]
  rw [foldl_dictInsert _ _ ?_ ?_]
  · intro p hp
    obtain ⟨k, hk, rfl⟩ := List.mem_map.mp hp
    rw [hkeys1]
    intro hmem
    obtain ⟨k2, hk2, he⟩ := List.mem_map.mp hmem
    have hke : k2 = k := Option.some_injective _ he
    exact hdisj (hke ▸ hk2) hk
  · rw [show ((header.drop row.length).map
        (fun k => ((some k : Option String), JVal.null))).map (fun p => p.1)
      = (header.drop row.length).map some from by
      rw [List.map_map]
      rfl]
    exact (hnd.sublist (List.drop_sublist _ _)).map (Option.some_injective _)

/-- Keys of a short `DictReader` row are exactly the header names. -/
theorem mkDictRow_keys (header row : List String)
    (hnd : header.Nodup) (hlen : row.length ≤ header.length) :
    (mkDictRow header row).map (fun p => p.1) = header.map some := by
  rw [mkDictRow_short header row hnd hlen, List.map_append]
  rw [List.map_map, List.map_map]
  rw [show ((fun p => p.1) ∘ fun (p : String × String)
      => ((some p.1 : Option String), JVal.str p.2))
    = some ∘ Prod.fst from rfl]
  rw [show ((fun p => p.1) ∘ fun (k : String)
      => ((some k : Option String), JVal.null)) = some from rfl]
  rw [← List.map_map, map_fst_zip_take, ← List.map_append, List.take_append_drop]

/-! ## The claims -/

/-- C1, counterexample: the pandas pipeline, fed a CSV file with a missing
cell, writes the line `{"a": 1, "b": NaN}` to the Output Artifact; that line
is not valid, independently-parseable JSON (the strict RFC parse fails on the
`NaN` token), although Python's own lenient `json.loads` accepts it. -/
theorem C1_counterexample :
    (pd_process_folder [⟨"m.csv", "a,b\n1,\n", true, true⟩]).lines
      = ["\x7b\"a\": 1, \"b\": NaN\x7d"]
    ∧ strictParse "\x7b\"a\": 1, \"b\": NaN\x7d" = none
    ∧ (loads "\x7b\"a\": 1, \"b\": NaN\x7d").isSome = true :=
  ⟨rfl, rfl, rfl⟩

/-- C1, amended: every line either pipeline appends to an Output Artifact
parses successfully under Python's `json.loads` (whose default options accept
the `NaN` token); strict RFC validity can fail only at `NaN` tokens produced
by pandas missing values. -/
theorem C1_amended (files : List SrcFile) (line : String)
    (h : line ∈ (process_folder files).lines ∨ line ∈ (pd_process_folder files).lines) :
    (loads line).isSome = true := by
  rcases h with h | h
  · obtain ⟨r, rfl⟩ := process_folder_line files line h
    exact loads_dumpsRec_isSome r
  · obtain ⟨r, rfl⟩ := pd_process_folder_line files line h
    exact loads_dumpsRec_isSome r

/-- C1, witness for the amended theorem at a concrete folder and line. -/
theorem C1_witness : (loads "42").isSome = true :=
  C1_amended [⟨"d.json", "42\n", true, true⟩] "42" (Or.inl (by decide))

/-- C2, counterexample: a folder holding one `.txt` file produces zero output
lines, but also zero Skip Log entries — not the one `[SKIPPED]` line the
claim requires — because `process_folder` filters unsupported extensions
before ever calling `read_records`. -/
theorem C2_counterexample :
    process_folder [⟨"notes.txt", "hello", true, true⟩] = ⟨[], [], none⟩
    ∧ (process_folder [⟨"notes.txt", "hello", true, true⟩]).skips
        ≠ ["[SKIPPED] unsupported file format: notes.txt"] :=
  ⟨rfl, by decide⟩

/-- C2, amended: an unsupported-extension regular file contributes zero lines
and processing continues, but the Skip Log is never written: the pure-python
`process_folder` skips the file before dispatch (its result is exactly that
of the rest of the folder), the pandas pipeline instead prints
`Unsupported file format: <path>` to stdout, and the `[SKIPPED]` Skip Log
append (with no trailing newline) lives only in `read_records`, which the
consolidator never reaches with such a file. -/
theorem C2_amended (f : SrcFile) (rest : List SrcFile) (hf : f.isFile = true)
    (h1 : suffixLower f.name ≠ ".csv") (h2 : suffixLower f.name ≠ ".json") :
    process_folder (f :: rest) = process_folder rest
    ∧ pd_process_folder (f :: rest)
        = ⟨(pd_process_folder rest).lines,
           ("Unsupported file format: " ++ f.name) :: (pd_process_folder rest).prints,
           (pd_process_folder rest).errAt⟩
    ∧ read_records f = (.ok [], ["[SKIPPED] unsupported file format: " ++ f.name]) := by
  refine ⟨?_, ?_, ?_⟩
  · rw [process_folder]
    simp [h1, h2]
  · rw [pd_process_folder]
    simp [hf, h1, h2]
  · simp [read_records, h1, h2]

/-- C2, witness for the amended theorem at a concrete `.txt` file. -/
theorem C2_witness :
    read_records ⟨"notes.txt", "hello", true, true⟩
      = (.ok [], ["[SKIPPED] unsupported file format: notes.txt"]) :=
  (C2_amended ⟨"notes.txt", "hello", true, true⟩ [] rfl (by decide) (by decide)).2.2

/-- C3, counterexample: the readers inspect the very first character, not the
first non-whitespace character.  On the file content `" [1, 2]"` (leading
space) the code takes newline-delimited mode and yields ONE record (the whole
array), while the spec's first-non-whitespace rule demands array mode and two
records. -/
theorem C3_counterexample :
    jsonArrayMode " [1, 2]" = false
    ∧ specArrayMode " [1, 2]" = true
    ∧ read_json ⟨"x.json", " [1, 2]", true, true⟩
        = .ok [.jv (.arr [.num 1, .num 2])]
    ∧ specReadJson ⟨"x.json", " [1, 2]", true, true⟩
        = .ok [.jv (.num 1), .jv (.num 2)]
    ∧ read_json ⟨"x.json", " [1, 2]", true, true⟩
        ≠ specReadJson ⟨"x.json", " [1, 2]", true, true⟩ := by
  refine ⟨rfl, rfl, rfl, rfl, ?_⟩
  intro h
  rw [show read_json ⟨"x.json", " [1, 2]", true, true⟩
      = .ok [.jv (.arr [.num 1, .num 2])] from rfl,
    show specReadJson ⟨"x.json", " [1, 2]", true, true⟩
      = .ok [.jv (.num 1), .jv (.num 2)] from rfl] at h
  injection h with h2
  injection h2 with h3 h4
  injection h3 with h5
  exact JVal.noConfusion h5

/-- C3, amended: the mode decision inspects the file's first character with
no whitespace skipping (`[` ⇒ array mode, anything else or an empty file ⇒
newline-delimited mode); whenever the first character is not whitespace this
coincides with the spec's first-non-whitespace rule, and then the code reader
and the spec-modelled reader agree. -/
theorem C3_amended (f : SrcFile) (c : Char)
    (hhead : f.content.toList.head? = some c) (hws : isPyWs c = false) :
    jsonArrayMode f.content = specArrayMode f.content
    ∧ read_json f = specReadJson f := by
  have h1 : jsonArrayMode f.content = specArrayMode f.content := by
    cases hl : f.content.toList with
    | nil =>
      rw [hl] at hhead
      simp at hhead
    | cons c0 t =>
      rw [hl] at hhead
      simp at hhead
      subst hhead
      unfold jsonArrayMode specArrayMode firstChar
      rw [hl]
      rw [List.dropWhile_cons_of_neg (by simp [hws])]
  exact ⟨h1, by simp only [read_json, specReadJson, h1]⟩

/-- C3, witness for the amended theorem at a file starting with `[`. -/
theorem C3_witness :
    read_json ⟨"x.json", "[1]", true, true⟩ = specReadJson ⟨"x.json", "[1]", true, true⟩ :=
  (C3_amended ⟨"x.json", "[1]", true, true⟩ '[' rfl (by decide)).2

/-- C4, counterexample: an unreadable `.json` file makes the pure-python
pipeline abort the folder: `read_json` has no handler, the error escapes the
reader, and the sibling `.csv` file that alone would produce one line is
never processed. -/
theorem C4_counterexample :
    process_folder [⟨"a.json", "", true, false⟩, ⟨"b.csv", "a\n1", true, true⟩]
      = ⟨[], [], some "OSError opening a.json"⟩
    ∧ read_json ⟨"a.json", "", true, false⟩ = .error "OSError opening a.json"
    ∧ process_folder [⟨"b.csv", "a\n1", true, true⟩]
      = ⟨["\x7b\"a\": \"1\"\x7d"], [], none⟩ :=
  ⟨rfl, rfl, rfl⟩

/-- C4, amended: only the pandas-pipeline JSON reader catches open/read
errors — `read_pd_json` prints `Error reading <path>` and yields zero
records, and `pd_process_folder` continues with the remaining files; the
pure-python `read_json` has no handler, so the error propagates out of the
reader and aborts the folder's processing. -/
theorem C4_amended (f : SrcFile) (rest : List SrcFile) (hf : f.isFile = true)
    (hj : suffixLower f.name = ".json") (hr : f.readable = false) :
    read_pd_json f = ([], ["Error reading " ++ f.name])
    ∧ pd_process_folder (f :: rest)
        = ⟨(pd_process_folder rest).lines,
           ("Error reading " ++ f.name) :: (pd_process_folder rest).prints,
           (pd_process_folder rest).errAt⟩
    ∧ read_json f = .error ("OSError opening " ++ f.name)
    ∧ process_folder (f :: rest) = ⟨[], [], some ("OSError opening " ++ f.name)⟩ := by
  have hc : suffixLower f.name ≠ ".csv" := by
    rw [hj]
    decide
  refine ⟨?_, ?_, ?_, ?_⟩
  · simp [read_pd_json, hr]
  · rw [pd_process_folder]
    simp [hf, hc, hj, read_pd_json, hr]
  · simp [read_json, hr]
  · rw [process_folder]
    simp [hf, hj, hc, read_records, read_json, hr]

/-- C4, witness for the amended theorem at a concrete unreadable file. -/
theorem C4_witness :
    pd_process_folder [⟨"a.json", "", true, false⟩] = ⟨[], ["Error reading a.json"], none⟩ :=
  (C4_amended ⟨"a.json", "", true, false⟩ [] rfl rfl rfl).2.1

/-- C5, confirmed: in newline-delimited mode a non-blank line that fails to
parse is silently dropped — removing it from the line sequence leaves the
yielded records unchanged and no error reaches the caller — and the file
`{"x":1}\nnot json\n{"x":2}\n` yields exactly the records `{"x":1}` and
`{"x":2}`. -/
theorem C5_holds (content : String) (pre post : List (List Char)) (bad : List Char)
    (hsplit : splitLinesCh content.toList = pre ++ bad :: post)
    (hnb : stripCh bad ≠ [])
    (hfail : parseDoc true (stripCh bad) = none) :
    ndjsonVals content
      = (pre ++ post).filterMap
          (fun l => if stripCh l = [] then none else parseDoc true (stripCh l))
    ∧ read_json ⟨"f.json", "\x7b\"x\":1\x7d\nnot json\n\x7b\"x\":2\x7d\n", true, true⟩
        = .ok [.jv (.obj [("x", .num 1)]), .jv (.obj [("x", .num 2)])] := by
  refine ⟨?_, rfl⟩
  unfold ndjsonVals
  rw [hsplit]
  simp only [List.filterMap_append, List.filterMap_cons, if_neg hnb, hfail]

/-- C5, witness at the concrete malformed-middle-line file. -/
theorem C5_witness :
    ndjsonVals "\x7b\"x\":1\x7d\nnot json\n\x7b\"x\":2\x7d\n"
      = (["\x7b\"x\":1\x7d".toList, "\x7b\"x\":2\x7d".toList, ([] : List Char)]).filterMap
          (fun l => if stripCh l = [] then none else parseDoc true (stripCh l)) :=
  (C5_holds "\x7b\"x\":1\x7d\nnot json\n\x7b\"x\":2\x7d\n"
    ["\x7b\"x\":1\x7d".toList] ["\x7b\"x\":2\x7d".toList, []] "not json".toList
    rfl (by decide) rfl).1

/-- C6, confirmed: for a folder of readable regular files that are all CSV or
newline-delimited JSON, the number of lines of the Output Artifact is the sum
of the CSV files' data-row counts plus the JSON files' successfully-parsed
line counts (and the folder completes without error). -/
theorem C6_holds (files : List SrcFile)
    (h : ∀ f ∈ files, f.isFile = true ∧ f.readable = true ∧
      (suffixLower f.name = ".csv"
        ∨ (suffixLower f.name = ".json" ∧ jsonArrayMode f.content = false))) :
    newlineCount (artifactText (process_folder files).lines)
      = ((files.filter (fun f => suffixLower f.name = ".csv")).map
          (fun f => csvDataRowCount f.content)).sum
        + ((files.filter (fun f => suffixLower f.name = ".json")).map
          (fun f => ndjsonOkLineCount f.content)).sum
    ∧ (process_folder files).errAt = none := by
  have hlen := process_folder_count files h
  have hnl : ∀ l ∈ (process_folder files).lines, ('\n' : Char) ∉ l.toList := by
    intro l hl
    obtain ⟨r, rfl⟩ := process_folder_line files l hl
    exact dumpsRec_no_nl r
  exact ⟨(artifact_count _ hnl).trans hlen.1, hlen.2⟩

/-- C6, witness at a concrete two-file folder (2 CSV rows + 2 parsed JSON
lines = 4 artifact lines). -/
theorem C6_witness :
    newlineCount (artifactText (process_folder
      [⟨"a.csv", "a,b\n1,2\n3,4", true, true⟩,
       ⟨"b.json", "\x7b\x7d\n\nbad\n5", true, true⟩]).lines) = 4 := by
  have h := C6_holds
    [⟨"a.csv", "a,b\n1,2\n3,4", true, true⟩, ⟨"b.json", "\x7b\x7d\n\nbad\n5", true, true⟩]
    (by decide)
  rw [h.1]
  decide

/-- C7, counterexample: a data row wider than the header does not keep the
header's keys — `csv.DictReader` adds the overflow under its `restkey`
`None`, so the record for header `a,b` and row `1,2,3` has keys
`[a, b, None]`, not exactly the header names. -/
theorem C7_counterexample :
    (read_csv "a,b\n1,2,3").map recKeys = [[some "a", some "b", none]]
    ∧ [[some "a", some "b", none]] ≠ [[(some "a" : Option String), some "b"]] :=
  ⟨rfl, by decide⟩

/-- C7, amended: for files whose header names are distinct and whose data
rows are non-blank and no wider than the header, the Tabular Reader yields
one record per data row, each record being the header-row zip (short rows
padded with `None` restval fills), so each record's keys are exactly the
header's column names in header order; in particular header `a,b,c` with row
`1,2,3` yields exactly `{"a":"1","b":"2","c":"3"}`. -/
theorem C7_amended (content : String) (header : List String) (dataRows : List (List String))
    (hrows : csvRows content = header :: dataRows)
    (hnd : header.Nodup)
    (hwf : ∀ row ∈ dataRows, row ≠ [] ∧ row.length ≤ header.length) :
    read_csv content
      = dataRows.map (fun row => PyRec.row
          (((header.zip row).map (fun p => ((some p.1 : Option String), JVal.str p.2)))
            ++ ((header.drop row.length).map
                (fun k => ((some k : Option String), JVal.null)))))
    ∧ ∀ r ∈ read_csv content, recKeys r = header.map some := by
  have hfilter : dataRows.filter (fun r => r ≠ []) = dataRows :=
    List.filter_eq_self.mpr (fun row hrow => by simpa using (hwf row hrow).1)
  have h1 : read_csv content = (dataRows.map (mkDictRow header)).map PyRec.row := by
    unfold read_csv
    rw [hrows]
    show ((dataRows.filter (fun r => r ≠ [])).map (mkDictRow header)).map PyRec.row = _
    rw [hfilter]
  constructor
  · rw [h1, List.map_map]
    refine List.map_congr_left ?_
    intro row hrow
    show PyRec.row (mkDictRow header row) = _
    rw [mkDictRow_short header row hnd (hwf row hrow).2]
  · intro r hr
    rw [h1] at hr
    obtain ⟨d, hd, rfl⟩ := List.mem_map.mp hr
    obtain ⟨row, hrow, rfl⟩ := List.mem_map.mp hd
    show (mkDictRow header row).map (fun p => p.1) = header.map some
    exact mkDictRow_keys header row hnd (hwf row hrow).2

/-- C7, witness at the spec's own example file `a,b,c` / `1,2,3`. -/
theorem C7_witness :
    read_csv "a,b,c\n1,2,3"
      = [PyRec.row [(some "a", .str "1"), (some "b", .str "2"), (some "c", .str "3")]] := by
  have h := C7_amended "a,b,c\n1,2,3" ["a", "b", "c"] [["1", "2", "3"]]
    (by decide) (by decide) (by decide)
  rw [h.1]
  rfl

/-- C8, confirmed: `gzip.open(output_path, "wt")` truncates, so consolidating
a folder sets its output path to exactly this run's artifact text whatever
the file system held before, and re-running on an unchanged folder is
idempotent — the artifact is identical, never double-appended. -/
theorem C8_holds (fs : List (String × String)) (folder : Folder) :
    (consolidateFS (consolidateFS fs folder) folder = consolidateFS fs folder
      ∧ fsGet (consolidateFS fs folder) (outputPathOf folder)
          = some (artifactText (process_folder folder.files).lines))
    ∧ (pdConsolidateFS (pdConsolidateFS fs folder) folder = pdConsolidateFS fs folder
      ∧ fsGet (pdConsolidateFS fs folder) (outputPathOf folder)
          = some (artifactText (pd_process_folder folder.files).lines)) :=
  ⟨⟨fsSet_idem _ _ _, fsGet_fsSet _ _ _⟩, ⟨fsSet_idem _ _ _, fsGet_fsSet _ _ _⟩⟩

/-- C9, confirmed: the driver's dispatch is inverted relative to its naming —
option `pandas` prints `processing with pandas: …` but runs the pure-python
`process_folder`, any other option prints `processing in python
generators : …` but runs the pandas `pd_process_folder`, and the two
pipelines are observably different (they disagree on a CSV with a missing
cell). -/
theorem C9_holds (opt : String) (folder : Folder) (h : opt ≠ "pandas") :
    mainStep "pandas" folder
      = ("processing with pandas: " ++ folder.name,
         .purePipeline (process_folder folder.files))
    ∧ mainStep opt folder
      = ("processing in python generators : " ++ folder.name,
         .pdPipeline (pd_process_folder folder.files))
    ∧ (process_folder [⟨"m.csv", "a,b\n1,\n", true, true⟩]).lines
        ≠ (pd_process_folder [⟨"m.csv", "a,b\n1,\n", true, true⟩]).lines := by
  refine ⟨by simp [mainStep], by simp [mainStep, h], by decide⟩

/-- C9, witness at the concrete option string `python`. -/
theorem C9_witness :
    mainStep "python" ⟨"d", []⟩
      = ("processing in python generators : d", .pdPipeline (pd_process_folder [])) :=
  (C9_holds "python" ⟨"d", []⟩ (by decide)).2.1

/-- C10, confirmed: newline-delimited mode does not require parsed lines to
be objects — the bare scalar `42` and the array `[1,2]` are each yielded as a
record and written as one output line each (the array re-serialised with
`json.dump`'s `", "` separator). -/
theorem C10_holds :
    process_folder [⟨"d.json", "42\n[1,2]\n", true, true⟩]
      = ⟨["42", "[1, 2]"], [], none⟩
    ∧ read_json ⟨"d.json", "42\n[1,2]\n", true, true⟩
        = .ok [.jv (.num 42), .jv (.arr [.num 1, .num 2])] :=
  ⟨rfl, rfl⟩
